import Mathlib

/-!
# Verification of the childcare-leads-tracker dedup/score/normalize pipeline

A shallow embedding of the Python pipeline in
`src/analyzers/deduplicator.py`, `src/analyzers/scorer.py`,
`src/analyzers/claude_analyzer.py`, `src/utils/validators.py`,
`src/utils/helpers.py` and `src/core/data_processor.py`, together with
theorems checking the stated properties of that code.

Modelling conventions:
* A Python dict record is a partial map `String → Option Value`, where
  `Value` covers the value kinds the pipeline actually stores in the
  fields it reads (strings, ints, and `None`).  A missing key maps to
  `none`; a key present with Python `None` maps to `some Value.vNone`.
* Python `set` objects are `Finset String`.
* Character-level operations (`lower`, `strip`, `title`, `\s`, `\d`)
  are modelled on the ASCII range, which covers the data this pipeline
  manipulates; non-ASCII characters are passed through unchanged, as
  Python does for the uncased/non-space code points appearing here.
* The fuzzywuzzy `fuzz.token_sort_ratio` similarity is an external
  library, not part of this repository, so the deduplicator is
  parameterised over the similarity function `sim : String → String → Nat`.
-/

/-- A Python value stored in a record field: a string, an int, or `None`. -/
inductive Value where
  | vStr (s : String)
  | vInt (n : Int)
  | vNone
deriving DecidableEq, Repr

open Value

/-- A Python dict used as a record: a partial map from keys to values. -/
def Record : Type := String → Option Value

instance : Inhabited Record := ⟨fun _ => none⟩

/-- Python `str(v)` on our value domain (`str(None) = "None"`). -/
def pyStr : Value → String
  | vStr s => s
  | vInt n => toString n
  | vNone => "None"

/-- Python truthiness of `record.get(k)`: `None` (missing key or stored
`None`), `''` and `0` are falsy. -/
def pyTruthy : Option Value → Bool
  | none => false
  | some vNone => false
  | some (vStr s) => s ≠ ""
  | some (vInt n) => n ≠ 0

/-- Python `record.get(k, default)`. -/
def Record.getD (r : Record) (k : String) (d : Value) : Value :=
  match r k with
  | some v => v
  | none => d

/-- Python `record.get(k, '')` for a string-valued field (the pipeline
stores only strings in the fields read this way). -/
def Record.getStrD (r : Record) (k : String) (d : String) : String :=
  match r k with
  | some (vStr s) => s
  | some vNone => d
  | some (vInt n) => toString n
  | none => d

/-- Python `record[k] = v` (insert or overwrite). -/
def Record.set (r : Record) (k : String) (v : Value) : Record :=
  fun k' => if k' = k then some v else r k'

theorem Record.get_set_self (r : Record) (k : String) (v : Value) :
    (r.set k v) k = some v := by
  simp [Record.set]

theorem Record.get_set_ne (r : Record) (k k' : String) (v : Value) (h : k' ≠ k) :
    (r.set k v) k' = r k' := by
  simp [Record.set, h]

/-! ## ASCII character helpers (Python `lower`, `strip`, `title`, `\s`, `\d`) -/

/-- Python `str.strip()` / regex `\s` whitespace set: space, tab, newline,
carriage return, vertical tab, form feed. -/
def isPySpace (c : Char) : Bool :=
  decide (c.toNat = 32 ∨ c.toNat = 9 ∨ c.toNat = 10 ∨ c.toNat = 13 ∨
    c.toNat = 11 ∨ c.toNat = 12)

/-- ASCII alphabetic character (the cased characters of this pipeline's data). -/
def isAsciiAlpha (c : Char) : Bool :=
  decide ((65 ≤ c.toNat ∧ c.toNat ≤ 90) ∨ (97 ≤ c.toNat ∧ c.toNat ≤ 122))

/-- ASCII digit, the regex `\d` class. -/
def isAsciiDigit (c : Char) : Bool :=
  decide (48 ≤ c.toNat ∧ c.toNat ≤ 57)

/-- ASCII lower-casing of one character (Python `str.lower` restricted to
the ASCII letters this pipeline manipulates). -/
def lowerChar (c : Char) : Char :=
  if 65 ≤ c.toNat ∧ c.toNat ≤ 90 then Char.ofNat (c.toNat + 32) else c

/-- ASCII upper-casing of one character. -/
def upperChar (c : Char) : Char :=
  if 97 ≤ c.toNat ∧ c.toNat ≤ 122 then Char.ofNat (c.toNat - 32) else c

theorem Char.toNat_ofNat_valid {n : Nat} (h : n < 0xd800) :
    (Char.ofNat n).toNat = n := by
  have hv : n.isValidChar := Or.inl h
  simp only [Char.ofNat, hv, dite_true, Char.ofNatAux, Char.toNat, UInt32.toNat]
  simp

theorem lowerChar_toNat_of_upper {c : Char}
    (h : 65 ≤ c.toNat ∧ c.toNat ≤ 90) : (lowerChar c).toNat = c.toNat + 32 := by
  have : (Char.ofNat (c.toNat + 32)).toNat = c.toNat + 32 :=
    Char.toNat_ofNat_valid (by omega)
  simp [lowerChar, h, this]

theorem lowerChar_eq_self {c : Char} (h : ¬ (65 ≤ c.toNat ∧ c.toNat ≤ 90)) :
    lowerChar c = c := by
  simp [lowerChar, h]

theorem upperChar_toNat_of_lower {c : Char}
    (h : 97 ≤ c.toNat ∧ c.toNat ≤ 122) : (upperChar c).toNat = c.toNat - 32 := by
  have : (Char.ofNat (c.toNat - 32)).toNat = c.toNat - 32 :=
    Char.toNat_ofNat_valid (by omega)
  simp [upperChar, h, this]

theorem upperChar_eq_self {c : Char} (h : ¬ (97 ≤ c.toNat ∧ c.toNat ≤ 122)) :
    upperChar c = c := by
  simp [upperChar, h]

theorem lowerChar_idem (c : Char) : lowerChar (lowerChar c) = lowerChar c := by
  by_cases h : 65 ≤ c.toNat ∧ c.toNat ≤ 90
  · exact lowerChar_eq_self (by have := lowerChar_toNat_of_upper h; omega)
  · rw [lowerChar_eq_self h, lowerChar_eq_self h]

theorem upperChar_idem (c : Char) : upperChar (upperChar c) = upperChar c := by
  by_cases h : 97 ≤ c.toNat ∧ c.toNat ≤ 122
  · exact upperChar_eq_self (by have := upperChar_toNat_of_lower h; omega)
  · rw [upperChar_eq_self h, upperChar_eq_self h]

theorem isAsciiAlpha_lowerChar (c : Char) :
    isAsciiAlpha (lowerChar c) = isAsciiAlpha c := by
  by_cases h : 65 ≤ c.toNat ∧ c.toNat ≤ 90
  · have h1 := lowerChar_toNat_of_upper h
    simp only [isAsciiAlpha, decide_eq_decide]
    omega
  · rw [lowerChar_eq_self h]

theorem isAsciiAlpha_upperChar (c : Char) :
    isAsciiAlpha (upperChar c) = isAsciiAlpha c := by
  by_cases h : 97 ≤ c.toNat ∧ c.toNat ≤ 122
  · have h1 := upperChar_toNat_of_lower h
    simp only [isAsciiAlpha, decide_eq_decide]
    omega
  · rw [upperChar_eq_self h]

theorem isPySpace_lowerChar (c : Char) :
    isPySpace (lowerChar c) = isPySpace c := by
  by_cases h : 65 ≤ c.toNat ∧ c.toNat ≤ 90
  · have h1 := lowerChar_toNat_of_upper h
    simp only [isPySpace, decide_eq_decide]
    omega
  · rw [lowerChar_eq_self h]

theorem isPySpace_upperChar (c : Char) :
    isPySpace (upperChar c) = isPySpace c := by
  by_cases h : 97 ≤ c.toNat ∧ c.toNat ≤ 122
  · have h1 := upperChar_toNat_of_lower h
    simp only [isPySpace, decide_eq_decide]
    omega
  · rw [upperChar_eq_self h]

/-! ## String helpers: Python `lower`, `strip`, `title`, `in`, `int()` -/

/-- Python `str.lower()` (ASCII model). -/
def pyLower (s : String) : String := String.mk (s.data.map lowerChar)

/-- Strip `isPySpace` characters from both ends of a character list. -/
def stripChars (l : List Char) : List Char :=
  ((l.dropWhile isPySpace).reverse.dropWhile isPySpace).reverse

/-- Python `str.strip()`. -/
def pyStrip (s : String) : String := String.mk (stripChars s.data)

theorem length_dropWhile_le (p : Char → Bool) (l : List Char) :
    (l.dropWhile p).length ≤ l.length := by
  induction l with
  | nil => simp
  | cons c cs ih =>
    by_cases h : p c
    · simp only [List.dropWhile, h]
      exact Nat.le_succ_of_le ih
    · simp [List.dropWhile, h]

/-- `re.sub(r'\s+', ' ', s)`: replace every maximal whitespace run by a
single space. -/
def collapseWS : List Char → List Char
  | [] => []
  | c :: cs =>
    if isPySpace c then ' ' :: collapseWS (cs.dropWhile isPySpace)
    else c :: collapseWS cs
termination_by l => l.length
decreasing_by
  · simpa using Nat.lt_succ_of_le (length_dropWhile_le isPySpace cs)
  · simp

/-- `clean_string` from `utils/helpers.py` on an already-string value:
collapse internal whitespace runs to one space, then strip. -/
def cleanChars (l : List Char) : List Char := stripChars (collapseWS l)

/-- `clean_string(s)` from `utils/helpers.py`: falsy input (`None`, `''`,
`0`) yields `''`; otherwise the value is converted with `str` and cleaned. -/
def clean_string (v : Value) : String :=
  if pyTruthy (some v) then String.mk (cleanChars (pyStr v).data) else ""

/-- Python `str.title()` (ASCII model): an alphabetic character is
upper-cased when the preceding character is not alphabetic, otherwise
lower-cased. The Bool argument tracks whether the previous character was
alphabetic. -/
def titleChars : Bool → List Char → List Char
  | _, [] => []
  | prev, c :: cs =>
    (if isAsciiAlpha c then (if prev then lowerChar c else upperChar c) else c)
      :: titleChars (isAsciiAlpha c) cs

/-- Python `str.title()`. -/
def pyTitle (s : String) : String := String.mk (titleChars false s.data)

/-- Python substring test `need in hay`. -/
def containsSub : List Char → List Char → Bool
  | [], need => need.isEmpty
  | c :: t, need => need.isPrefixOf (c :: t) || containsSub t need

/-- Python `need in hay` on strings. -/
def strContains (hay need : String) : Bool := containsSub hay.data need.data

/-- Python `int(s)` on a string: optional surrounding whitespace, an
optional sign, then decimal digits; anything else raises (modelled as
`none`). -/
def pyInt (s : String) : Option Int :=
  let t := pyStrip s
  if t.startsWith "-" then (String.toNat? (t.drop 1)).map (fun n => -(n : Int))
  else if t.startsWith "+" then (String.toNat? (t.drop 1)).map (fun n => (n : Int))
  else (String.toNat? t).map (fun n => (n : Int))

/-! ## Deduplicator (`src/analyzers/deduplicator.py`)

`fuzz.token_sort_ratio` comes from the external fuzzywuzzy library, so
everything is parameterised over `sim : String → String → Nat`, the
similarity score in `[0, 100]`. -/

/-- `Deduplicator.ADDRESS_SIMILARITY_THRESHOLD`. -/
def ADDRESS_SIMILARITY_THRESHOLD : Nat := 90

/-- The running state of one `remove_duplicates` call: the three seen-sets
and the per-category duplicate counters. -/
structure DedupState where
  seen_licenses : Finset String
  seen_addresses : Finset String
  seen_names_addresses : Finset String
  dup_license : Nat
  dup_name_address : Nat
  dup_fuzzy_address : Nat
deriving DecidableEq

/-- `Deduplicator._is_similar_address`: empty address or empty set is never
similar; above 1000 existing addresses only the exact-membership lookup
runs; otherwise the address is similar when any existing address scores at
least the threshold. -/
def is_similar_address (sim : String → String → Nat) (address : String)
    (existing_addresses : Finset String) : Bool :=
  if address = "" ∨ existing_addresses = ∅ then false
  else if 1000 < existing_addresses.card then decide (address ∈ existing_addresses)
  else decide (∃ a ∈ existing_addresses, ADDRESS_SIMILARITY_THRESHOLD ≤ sim address a)

/-- `record.get('license_number', '').strip()` in `remove_duplicates`. -/
def dedupLicense (r : Record) : String := pyStrip (r.getStrD "license_number" "")

/-- `record.get('address', '').lower().strip()` in `remove_duplicates`. -/
def dedupAddress (r : Record) : String := pyStrip (pyLower (r.getStrD "address" ""))

/-- `record.get('name', '').lower().strip()` in `remove_duplicates`. -/
def dedupName (r : Record) : String := pyStrip (pyLower (r.getStrD "name" ""))

/-- The `f"{name}|{address}"` dedup key. -/
def nameAddressKey (r : Record) : String := dedupName r ++ "|" ++ dedupAddress r

/-- One iteration of the `for record in records` loop of
`Deduplicator.remove_duplicates`: returns the updated state and `some r`
when the record is kept, `none` when it is dropped as a duplicate. -/
def dedupStep (sim : String → String → Nat) (s : DedupState) (r : Record) :
    DedupState × Option Record :=
  let license := dedupLicense r
  let address := dedupAddress r
  if license ≠ "" ∧ license ∈ s.seen_licenses then
    ({ s with dup_license := s.dup_license + 1 }, none)
  else
    let s1 := if license ≠ "" then
      { s with seen_licenses := insert license s.seen_licenses } else s
    if nameAddressKey r ∈ s1.seen_names_addresses then
      ({ s1 with dup_name_address := s1.dup_name_address + 1 }, none)
    else
      let s2 := { s1 with
        seen_names_addresses := insert (nameAddressKey r) s1.seen_names_addresses }
      if address ≠ "" ∧ is_similar_address sim address s2.seen_addresses then
        ({ s2 with dup_fuzzy_address := s2.dup_fuzzy_address + 1 }, none)
      else
        let s3 := if address ≠ "" then
          { s2 with seen_addresses := insert address s2.seen_addresses } else s2
        (s3, some r)

/-- The whole loop of `remove_duplicates`: the kept records in order, and
the final state (whose counters are the logged breakdown). -/
def removeDuplicatesGo (sim : String → String → Nat) (s : DedupState) :
    List Record → List Record × DedupState
  | [] => ([], s)
  | r :: rs =>
    match dedupStep sim s r with
    | (s1, some kept) =>
      let rest := removeDuplicatesGo sim s1 rs
      (kept :: rest.1, rest.2)
    | (s1, none) => removeDuplicatesGo sim s1 rs

/-- The state at the top of `remove_duplicates`: seen-sets seeded from the
existing data, the intra-run name+address set empty, counters zero. -/
def initialDedupState (existing_licenses existing_addresses : Finset String) :
    DedupState :=
  ⟨existing_licenses, existing_addresses, ∅, 0, 0, 0⟩

/-- `Deduplicator.remove_duplicates`: the function's return value is the
list of unique records; the duplicate breakdown is only logged. -/
def remove_duplicates (sim : String → String → Nat)
    (existing_licenses existing_addresses : Finset String)
    (records : List Record) : List Record :=
  (removeDuplicatesGo sim (initialDedupState existing_licenses existing_addresses)
    records).1

/-- The `duplicates` counter dict at the end of `remove_duplicates`
(`license`, `name_address`, `fuzzy_address`); it is written to the log and
not returned. -/
def duplicateBreakdown (sim : String → String → Nat)
    (existing_licenses existing_addresses : Finset String)
    (records : List Record) : Nat × Nat × Nat :=
  let s := (removeDuplicatesGo sim
    (initialDedupState existing_licenses existing_addresses) records).2
  (s.dup_license, s.dup_name_address, s.dup_fuzzy_address)

/-- Sum of the three duplicate counters. -/
def counterSum (s : DedupState) : Nat :=
  s.dup_license + s.dup_name_address + s.dup_fuzzy_address

theorem dedupStep_license_hit (sim : String → String → Nat) (s : DedupState)
    (r : Record) (h1 : dedupLicense r ≠ "") (h2 : dedupLicense r ∈ s.seen_licenses) :
    dedupStep sim s r = ({ s with dup_license := s.dup_license + 1 }, none) := by
  simp [dedupStep, h1, h2]

theorem dedupStep_dropped (sim : String → String → Nat) (s : DedupState)
    (r : Record) (s1 : DedupState) (h : dedupStep sim s r = (s1, none)) :
    (s1.dup_license = s.dup_license + 1 ∧ s1.dup_name_address = s.dup_name_address ∧
      s1.dup_fuzzy_address = s.dup_fuzzy_address) ∨
    (s1.dup_license = s.dup_license ∧ s1.dup_name_address = s.dup_name_address + 1 ∧
      s1.dup_fuzzy_address = s.dup_fuzzy_address) ∨
    (s1.dup_license = s.dup_license ∧ s1.dup_name_address = s.dup_name_address ∧
      s1.dup_fuzzy_address = s.dup_fuzzy_address + 1) := by
  simp only [dedupStep] at h
  split_ifs at h <;> simp only [Prod.mk.injEq] at h <;>
    obtain ⟨hs, ho⟩ := h <;>
    first
      | (exact Option.noConfusion ho)
      | (subst hs; simp)

theorem dedupStep_kept (sim : String → String → Nat) (s : DedupState)
    (r : Record) (s1 : DedupState) (k : Record)
    (h : dedupStep sim s r = (s1, some k)) :
    k = r ∧ s1.dup_license = s.dup_license ∧
      s1.dup_name_address = s.dup_name_address ∧
      s1.dup_fuzzy_address = s.dup_fuzzy_address := by
  simp only [dedupStep] at h
  split_ifs at h <;> simp only [Prod.mk.injEq] at h <;>
    obtain ⟨hs, ho⟩ := h <;>
    first
      | (exact Option.noConfusion ho)
      | (subst hs; injection ho with hk; subst hk; simp)

theorem removeDuplicatesGo_spec (sim : String → String → Nat) :
    ∀ (rs : List Record) (s : DedupState),
      (removeDuplicatesGo sim s rs).1.Sublist rs ∧
      (removeDuplicatesGo sim s rs).1.length + counterSum (removeDuplicatesGo sim s rs).2 =
        rs.length + counterSum s := by
  intro rs
  induction rs with
  | nil => intro s; simp [removeDuplicatesGo]
  | cons r rs ih =>
    intro s
    rcases h : dedupStep sim s r with ⟨s1, o⟩
    cases o with
    | none =>
      have hd := dedupStep_dropped sim s r s1 h
      have hsum : counterSum s1 = counterSum s + 1 := by
        unfold counterSum; rcases hd with ⟨a, b, c⟩ | ⟨a, b, c⟩ | ⟨a, b, c⟩ <;> omega
      obtain ⟨ih1, ih2⟩ := ih s1
      refine ⟨?_, ?_⟩ <;> simp only [removeDuplicatesGo, h]
      · exact ih1.cons r
      · rw [ih2, hsum]
        simp only [List.length_cons]
        omega
    | some k =>
      obtain ⟨hkr, h1, h2, h3⟩ := dedupStep_kept sim s r s1 k h
      subst hkr
      have hsum : counterSum s1 = counterSum s := by unfold counterSum; omega
      obtain ⟨ih1, ih2⟩ := ih s1
      refine ⟨?_, ?_⟩ <;> simp only [removeDuplicatesGo, h]
      · exact ih1.cons₂ k
      · simp only [List.length_cons]
        omega

theorem dedupStep_empty_address (sim : String → String → Nat) (s : DedupState)
    (r : Record) (h : dedupAddress r = "") :
    (dedupStep sim s r).1.seen_addresses = s.seen_addresses ∧
    (dedupStep sim s r).1.dup_fuzzy_address = s.dup_fuzzy_address := by
  simp only [dedupStep, h]
  split_ifs <;> simp_all

theorem dedupStep_all_pass (sim : String → String → Nat) (s : DedupState) (r : Record)
    (hlic : ¬ (dedupLicense r ≠ "" ∧ dedupLicense r ∈ s.seen_licenses))
    (hkey : nameAddressKey r ∉ s.seen_names_addresses)
    (haddr : dedupAddress r = "") :
    dedupStep sim s r =
      (⟨if dedupLicense r = "" then s.seen_licenses
          else insert (dedupLicense r) s.seen_licenses,
        s.seen_addresses,
        insert (nameAddressKey r) s.seen_names_addresses,
        s.dup_license, s.dup_name_address, s.dup_fuzzy_address⟩, some r) := by
  simp only [dedupStep, haddr]
  rw [if_neg hlic]
  by_cases he : dedupLicense r = "" <;> simp [he, hkey]

theorem go_keeps_all (sim : String → String → Nat) :
    ∀ (rs : List Record) (s : DedupState),
      (∀ r ∈ rs, dedupAddress r = "") →
      (∀ r ∈ rs, dedupLicense r ≠ "" → dedupLicense r ∉ s.seen_licenses) →
      (∀ r ∈ rs, nameAddressKey r ∉ s.seen_names_addresses) →
      rs.Pairwise (fun a b =>
        (dedupLicense a = "" ∨ dedupLicense a ≠ dedupLicense b) ∧
        nameAddressKey a ≠ nameAddressKey b) →
      (removeDuplicatesGo sim s rs).1 = rs := by
  intro rs
  induction rs with
  | nil => intro s _ _ _ _; rfl
  | cons r rs ih =>
    intro s haddr hlic hkey hp
    have hlr : ¬ (dedupLicense r ≠ "" ∧ dedupLicense r ∈ s.seen_licenses) := by
      rintro ⟨h1, h2⟩; exact hlic r (by simp) h1 h2
    have hkr : nameAddressKey r ∉ s.seen_names_addresses := hkey r (by simp)
    have har : dedupAddress r = "" := haddr r (by simp)
    have hstep := dedupStep_all_pass sim s r hlr hkr har
    obtain ⟨hrel, hptail⟩ := List.pairwise_cons.mp hp
    simp only [removeDuplicatesGo, hstep]
    have hrec := ih (⟨if dedupLicense r = "" then s.seen_licenses
          else insert (dedupLicense r) s.seen_licenses,
        s.seen_addresses,
        insert (nameAddressKey r) s.seen_names_addresses,
        s.dup_license, s.dup_name_address, s.dup_fuzzy_address⟩ : DedupState)
      (fun x hx => haddr x (by simp [hx]))
      (fun x hx h1 => by
        show dedupLicense x ∉ (if dedupLicense r = "" then s.seen_licenses
          else insert (dedupLicense r) s.seen_licenses)
        split
        · exact hlic x (by simp [hx]) h1
        · rename_i he
          rw [Finset.mem_insert]
          rintro (h2 | h2)
          · rcases (hrel x hx).1 with h3 | h3
            · exact he h3
            · exact h3 h2.symm
          · exact hlic x (by simp [hx]) h1 h2)
      (fun x hx => by
        show nameAddressKey x ∉ insert (nameAddressKey r) s.seen_names_addresses
        rw [Finset.mem_insert]
        rintro (h2 | h2)
        · exact (hrel x hx).2 h2.symm
        · exact hkey x (by simp [hx]) h2)
      hptail
    rw [hrec]

theorem is_similar_small_hit (sim : String → String → Nat) (address : String)
    (s : Finset String) (hcard : s.card ≤ 1000) (haddr : address ≠ "")
    (a : String) (ha : a ∈ s) (h90 : 90 ≤ sim address a) :
    is_similar_address sim address s = true := by
  have hne : s ≠ ∅ := Finset.ne_empty_of_mem ha
  have : ¬ (1000 < s.card) := by omega
  simp only [is_similar_address, haddr, hne, or_self, if_false, this,
    ADDRESS_SIMILARITY_THRESHOLD, decide_eq_true_eq]
  exact ⟨a, ha, h90⟩

theorem is_similar_small_miss (sim : String → String → Nat) (address : String)
    (s : Finset String) (hcard : s.card ≤ 1000)
    (hmiss : ∀ a ∈ s, sim address a ≤ 89) :
    is_similar_address sim address s = false := by
  by_cases hne : s = ∅
  · simp [is_similar_address, hne]
  · have : ¬ (1000 < s.card) := by omega
    by_cases haddr : address = ""
    · simp [is_similar_address, haddr]
    · simp only [is_similar_address, haddr, hne, or_self, if_false, this,
        ADDRESS_SIMILARITY_THRESHOLD, decide_eq_false_iff_not]
      rintro ⟨a, ha, h90⟩
      exact absurd (hmiss a ha) (by omega)

theorem is_similar_large (sim : String → String → Nat) (address : String)
    (s : Finset String) (hcard : 1000 < s.card) (haddr : address ≠ "") :
    is_similar_address sim address s = decide (address ∈ s) := by
  have hne : s ≠ ∅ := by
    intro h; rw [h] at hcard; simp at hcard
  simp [is_similar_address, haddr, hne, hcard]

theorem dedupStep_fuzzy_hit (sim : String → String → Nat) (s : DedupState) (r : Record)
    (hlic : ¬ (dedupLicense r ≠ "" ∧ dedupLicense r ∈ s.seen_licenses))
    (hkey : nameAddressKey r ∉ s.seen_names_addresses)
    (haddr : dedupAddress r ≠ "")
    (hsim : is_similar_address sim (dedupAddress r) s.seen_addresses = true) :
    (dedupStep sim s r).2 = none ∧
    (dedupStep sim s r).1.dup_fuzzy_address = s.dup_fuzzy_address + 1 := by
  simp only [dedupStep]
  rw [if_neg hlic]
  by_cases he : dedupLicense r = "" <;> simp [he, hkey, haddr, hsim]

theorem dedupStep_fuzzy_miss (sim : String → String → Nat) (s : DedupState) (r : Record)
    (hlic : ¬ (dedupLicense r ≠ "" ∧ dedupLicense r ∈ s.seen_licenses))
    (hkey : nameAddressKey r ∉ s.seen_names_addresses)
    (hsim : is_similar_address sim (dedupAddress r) s.seen_addresses = false) :
    (dedupStep sim s r).2 = some r := by
  simp only [dedupStep]
  rw [if_neg hlic]
  by_cases he : dedupLicense r = "" <;> simp [he, hkey, hsim]

/-! ## Example records used by the concrete witnesses -/

/-- Build a record from an association list (a Python dict literal). -/
def recOfList (l : List (String × Value)) : Record := fun k => List.lookup k l

def rA : Record := recOfList
  [("license_number", vStr "ON-1001"), ("name", vStr "Sunny Kids"),
   ("address", vStr "12 Main St")]

def rB : Record := recOfList
  [("license_number", vStr ""), ("name", vStr "Sunny Kids"),
   ("address", vStr "12 Main St")]

def rFuzzy : Record := recOfList
  [("license_number", vStr ""), ("name", vStr "Beta Care"),
   ("address", vStr "12 Main Street")]

def rNearMiss : Record := recOfList
  [("license_number", vStr ""), ("name", vStr "Gamma Care"),
   ("address", vStr "B")]

def rExact : Record := recOfList
  [("license_number", vStr ""), ("name", vStr "Delta Care"),
   ("address", vStr "A")]

def rEmpty1 : Record := recOfList
  [("license_number", vStr "ON-1"), ("name", vStr "Alpha"), ("address", vStr "")]

def rEmpty2 : Record := recOfList
  [("license_number", vStr "ON-2"), ("name", vStr "Beta"), ("address", vStr "")]

/-- A seed state whose license set contains `rA`'s license and whose
address set contains `rA`'s normalized address exactly. -/
def c1State : DedupState := ⟨{"ON-1001"}, {"12 main st"}, ∅, 0, 0, 0⟩

/-- A small seen-address state for the threshold boundary check. -/
def c3State : DedupState := ⟨∅, {"main street 12"}, ∅, 0, 0, 0⟩

/-- 1001 pairwise distinct addresses (`"a"`, `"aa"`, … 1001 of them). -/
def bigAddrSet : Finset String :=
  (Finset.range 1001).image (fun n => String.mk (List.replicate (n + 1) 'a'))

theorem bigAddrSet_card : bigAddrSet.card = 1001 := by
  rw [bigAddrSet, Finset.card_image_of_injective _ ?_, Finset.card_range]
  intro a b h
  have hd := congrArg String.data h
  have := congrArg List.length hd
  simpa using this

theorem b_not_mem_bigAddrSet : "b" ∉ bigAddrSet := by
  rw [bigAddrSet]
  simp only [Finset.mem_image, Finset.mem_range, not_exists, not_and]
  intro n _
  intro h
  have h2 : List.replicate (n + 1) 'a' = ['b'] := by
    have := congrArg String.data h
    simpa using this
  have hlen := congrArg List.length h2
  simp at hlen
  subst hlen
  simp [List.replicate] at h2

theorem a_mem_bigAddrSet : "a" ∈ bigAddrSet := by
  rw [bigAddrSet]
  simp only [Finset.mem_image, Finset.mem_range]
  exact ⟨0, by omega, by decide⟩

/-- The > 1000 addresses seed state for the large-set guard. -/
def c4State : DedupState := ⟨∅, bigAddrSet, ∅, 0, 0, 0⟩

/-!  ## The deduplicator claims -/

/-- **C1**: in `Deduplicator.remove_duplicates` the per-record decision is
taken in strict priority order.  A non-empty license number already seen
yields the result `({ s with dup_license := s.dup_license + 1 }, none)`:
the record is dropped in the `license` category and nothing else in the
state changes, so neither the name+address check nor the fuzzy check runs
— in particular this holds when the record's address also exactly
duplicates a seen address.  Moreover every dropped record increments
exactly one of the three category counters and a kept record increments
none. -/
theorem c1_dedup_priority_order (sim : String → String → Nat) (s : DedupState)
    (r : Record) :
    (dedupLicense r ≠ "" → dedupLicense r ∈ s.seen_licenses →
      dedupStep sim s r = ({ s with dup_license := s.dup_license + 1 }, none)) ∧
    (∀ s1, dedupStep sim s r = (s1, none) →
      (s1.dup_license = s.dup_license + 1 ∧ s1.dup_name_address = s.dup_name_address ∧
        s1.dup_fuzzy_address = s.dup_fuzzy_address) ∨
      (s1.dup_license = s.dup_license ∧ s1.dup_name_address = s.dup_name_address + 1 ∧
        s1.dup_fuzzy_address = s.dup_fuzzy_address) ∨
      (s1.dup_license = s.dup_license ∧ s1.dup_name_address = s.dup_name_address ∧
        s1.dup_fuzzy_address = s.dup_fuzzy_address + 1)) ∧
    (∀ s1 k, dedupStep sim s r = (s1, some k) →
      k = r ∧ s1.dup_license = s.dup_license ∧
        s1.dup_name_address = s.dup_name_address ∧
        s1.dup_fuzzy_address = s.dup_fuzzy_address) :=
  ⟨fun h1 h2 => dedupStep_license_hit sim s r h1 h2,
   fun s1 h => dedupStep_dropped sim s r s1 h,
   fun s1 k h => dedupStep_kept sim s r s1 k h⟩

/-- Witness for C1: `rA`'s license is in the seed set and its address is an
exact duplicate of a seen address, yet it is counted as a `license`
duplicate and the rest of the state is untouched. -/
theorem c1_dedup_priority_order_witness :
    dedupStep (fun _ _ => 0) c1State rA =
      ({ c1State with dup_license := c1State.dup_license + 1 }, none) :=
  (c1_dedup_priority_order (fun _ _ => 0) c1State rA).1 (by decide) (by decide)

/-- **C3**: with at most 1000 seen addresses, a record passing the earlier
checks whose non-empty address scores exactly 90 against some seen address
is dropped in the `fuzzy_address` category, while one whose best score
against every seen address is 89 is kept. -/
theorem c3_fuzzy_threshold_boundary (sim : String → String → Nat)
    (s : DedupState) (r : Record)
    (hcard : s.seen_addresses.card ≤ 1000)
    (hlic : ¬ (dedupLicense r ≠ "" ∧ dedupLicense r ∈ s.seen_licenses))
    (hkey : nameAddressKey r ∉ s.seen_names_addresses)
    (haddr : dedupAddress r ≠ "") :
    ((∃ a ∈ s.seen_addresses, sim (dedupAddress r) a = 90) →
      (dedupStep sim s r).2 = none ∧
      (dedupStep sim s r).1.dup_fuzzy_address = s.dup_fuzzy_address + 1) ∧
    ((∀ a ∈ s.seen_addresses, sim (dedupAddress r) a ≤ 89) →
      (dedupStep sim s r).2 = some r) := by
  constructor
  · rintro ⟨a, ha, h90⟩
    exact dedupStep_fuzzy_hit sim s r hlic hkey haddr
      (is_similar_small_hit sim (dedupAddress r) s.seen_addresses hcard haddr a ha
        (by omega))
  · intro hmiss
    exact dedupStep_fuzzy_miss sim s r hlic hkey
      (is_similar_small_miss sim (dedupAddress r) s.seen_addresses hcard hmiss)

/-- Witness for C3: against the single seen address `"main street 12"`, a
similarity of exactly 90 drops `rFuzzy` as a fuzzy duplicate and a
similarity of 89 keeps it. -/
theorem c3_fuzzy_threshold_boundary_witness :
    (dedupStep (fun _ _ => 90) c3State rFuzzy).2 = none ∧
    (dedupStep (fun _ _ => 90) c3State rFuzzy).1.dup_fuzzy_address =
      c3State.dup_fuzzy_address + 1 ∧
    (dedupStep (fun _ _ => 89) c3State rFuzzy).2 = some rFuzzy := by
  obtain ⟨h1, h2⟩ := (c3_fuzzy_threshold_boundary (fun _ _ => 90) c3State rFuzzy
    (by decide) (by decide) (by decide) (by decide)).1
    ⟨"main street 12", by decide, rfl⟩
  refine ⟨h1, h2, ?_⟩
  exact (c3_fuzzy_threshold_boundary (fun _ _ => 89) c3State rFuzzy
    (by decide) (by decide) (by decide) (by decide)).2 (fun a _ => by omega)

/-- **C4**: with more than 1000 seen addresses the fuzzy comparison is
skipped: `_is_similar_address` degenerates to the exact-membership test
(for any similarity function, hence also one scoring a near-miss at 95),
so a record passing the earlier checks is kept whenever its address is
not literally in the set and dropped as `fuzzy_address` when it is. -/
theorem c4_large_set_guard (sim : String → String → Nat)
    (s : DedupState) (r : Record)
    (hcard : 1000 < s.seen_addresses.card)
    (hlic : ¬ (dedupLicense r ≠ "" ∧ dedupLicense r ∈ s.seen_licenses))
    (hkey : nameAddressKey r ∉ s.seen_names_addresses)
    (haddr : dedupAddress r ≠ "") :
    (is_similar_address sim (dedupAddress r) s.seen_addresses =
      decide (dedupAddress r ∈ s.seen_addresses)) ∧
    (dedupAddress r ∉ s.seen_addresses → (dedupStep sim s r).2 = some r) ∧
    (dedupAddress r ∈ s.seen_addresses →
      (dedupStep sim s r).2 = none ∧
      (dedupStep sim s r).1.dup_fuzzy_address = s.dup_fuzzy_address + 1) := by
  have hsim := is_similar_large sim (dedupAddress r) s.seen_addresses hcard haddr
  refine ⟨hsim, ?_, ?_⟩
  · intro hnot
    exact dedupStep_fuzzy_miss sim s r hlic hkey (by rw [hsim]; simpa using hnot)
  · intro hmem
    exact dedupStep_fuzzy_hit sim s r hlic hkey haddr (by rw [hsim]; simpa using hmem)

/-- Witness for C4: over a seed of 1001 distinct addresses and a similarity
function that scores every pair at 95, the near-miss record (address `"b"`,
not in the set) is kept while the exact-match record (address `"a"`, in the
set) is dropped as a fuzzy duplicate. -/
theorem c4_large_set_guard_witness :
    (dedupStep (fun _ _ => 95) c4State rNearMiss).2 = some rNearMiss ∧
    (dedupStep (fun _ _ => 95) c4State rExact).2 = none := by
  have hcard : 1000 < c4State.seen_addresses.card := by
    have : c4State.seen_addresses = bigAddrSet := rfl
    rw [this, bigAddrSet_card]
    omega
  constructor
  · refine (c4_large_set_guard (fun _ _ => 95) c4State rNearMiss hcard
      (by decide) (by decide) (by decide)).2.1 ?_
    have : dedupAddress rNearMiss = "b" := by decide
    rw [this]
    exact b_not_mem_bigAddrSet
  · refine ((c4_large_set_guard (fun _ _ => 95) c4State rExact hcard
      (by decide) (by decide) (by decide)).2.2 ?_).1
    have : dedupAddress rExact = "a" := by decide
    rw [this]
    exact a_mem_bigAddrSet

/-- **C5, counterexample**: the claim says the per-category breakdown is a
required output of `remove_duplicates` alongside the filtered list.  It is
not: the function returns only the list (the breakdown is merely logged).
Two concrete batches with different breakdowns — `[rA, rA]` drops its
second record as a `license` duplicate, `[rA, rB]` drops it as a
`name_address` duplicate — produce identical return values, so the
breakdown cannot be part of (or recovered from) the operation's output. -/
theorem c5_breakdown_not_returned :
    remove_duplicates (fun _ _ => 0) ∅ ∅ [rA, rA] =
      remove_duplicates (fun _ _ => 0) ∅ ∅ [rA, rB] ∧
    duplicateBreakdown (fun _ _ => 0) ∅ ∅ [rA, rA] ≠
      duplicateBreakdown (fun _ _ => 0) ∅ ∅ [rA, rB] :=
  ⟨rfl, by decide⟩

/-- **C5, amended**: `remove_duplicates` returns the kept records in their
original relative order (the result is a sublist of the input); the
per-category breakdown is computed internally and logged — it accounts for
every dropped record — but it is not part of the return value. -/
theorem c5_order_and_breakdown (sim : String → String → Nat)
    (lic addr : Finset String) (records : List Record) :
    (remove_duplicates sim lic addr records).Sublist records ∧
    (remove_duplicates sim lic addr records).length +
      ((duplicateBreakdown sim lic addr records).1 +
        (duplicateBreakdown sim lic addr records).2.1 +
        (duplicateBreakdown sim lic addr records).2.2) = records.length := by
  obtain ⟨h1, h2⟩ := removeDuplicatesGo_spec sim records (initialDedupState lic addr)
  refine ⟨h1, ?_⟩
  simp only [remove_duplicates, duplicateBreakdown]
  unfold counterSum at h2
  simp only [initialDedupState] at h2 ⊢
  omega

/-- **C9**: a record whose address is empty after lower-casing and trimming
never reaches the fuzzy-address category and never adds anything to the
seen-address set; consequently a batch of empty-address records whose
license numbers are distinct and unseen and whose name+address keys are
pairwise distinct is kept in full, whatever the seeded address set. -/
theorem c9_empty_address_kept (sim : String → String → Nat) :
    (∀ (s : DedupState) (r : Record), dedupAddress r = "" →
      (dedupStep sim s r).1.seen_addresses = s.seen_addresses ∧
      (dedupStep sim s r).1.dup_fuzzy_address = s.dup_fuzzy_address) ∧
    (∀ (lic addr : Finset String) (records : List Record),
      (∀ r ∈ records, dedupAddress r = "") →
      (∀ r ∈ records, dedupLicense r ≠ "" → dedupLicense r ∉ lic) →
      records.Pairwise (fun a b =>
        (dedupLicense a = "" ∨ dedupLicense a ≠ dedupLicense b) ∧
        nameAddressKey a ≠ nameAddressKey b) →
      remove_duplicates sim lic addr records = records) := by
  refine ⟨fun s r h => dedupStep_empty_address sim s r h, ?_⟩
  intro lic addr records h1 h2 h3
  exact go_keeps_all sim records (initialDedupState lic addr) h1 h2
    (fun r _ => Finset.not_mem_empty _) h3

/-- Witness for C9: two records with empty addresses, distinct unseen
licenses and distinct names are both kept even though the seed address set
is non-empty. -/
theorem c9_empty_address_kept_witness :
    remove_duplicates (fun _ _ => 0) {"Z-9"} {"12 main st"} [rEmpty1, rEmpty2] =
      [rEmpty1, rEmpty2] := by
  refine (c9_empty_address_kept (fun _ _ => 0)).2 {"Z-9"} {"12 main st"}
    [rEmpty1, rEmpty2] ?_ ?_ ?_
  · intro r hr
    simp only [List.mem_cons, List.not_mem_nil, or_false] at hr
    rcases hr with rfl | rfl <;> decide
  · intro r hr
    simp only [List.mem_cons, List.not_mem_nil, or_false] at hr
    rcases hr with rfl | rfl <;> intro _ <;> decide
  · refine List.Pairwise.cons ?_ (List.Pairwise.cons (by simp) List.Pairwise.nil)
    intro b hb
    simp only [List.mem_cons, List.not_mem_nil, or_false] at hb
    subst hb
    exact ⟨by decide, by decide⟩

/-! ## Scorer (`src/analyzers/scorer.py`) -/

/-- `config.CRITICAL_THRESHOLD` (default `90`; the env-var override is
outside the modelled scope). -/
def CRITICAL_THRESHOLD : Int := 90

/-- `config.HIGH_THRESHOLD` (default `85`). -/
def HIGH_THRESHOLD : Int := 85

/-- `config.MEDIUM_THRESHOLD` (default `70`). -/
def MEDIUM_THRESHOLD : Int := 70

/-- The `Scorer.CANADA_CITY_SCORES` dict literal. -/
def CANADA_CITY_SCORES_dict : List (String × Int) :=
  [("toronto", 40), ("vancouver", 40), ("montreal", 40),
   ("calgary", 35), ("edmonton", 35), ("ottawa", 35), ("winnipeg", 35),
   ("quebec city", 30), ("hamilton", 30), ("kitchener", 30), ("london", 30),
   ("victoria", 30), ("halifax", 30),
   ("oshawa", 25), ("windsor", 25), ("saskatoon", 25), ("regina", 25),
   ("st. catharines", 25), ("kelowna", 25), ("barrie", 25)]

/-- `Scorer.CANADA_CITY_SCORES.get(city)`. -/
def CANADA_CITY_SCORES (c : String) : Option Int :=
  CANADA_CITY_SCORES_dict.lookup c

/-- The `Scorer.AUSTRALIA_CITY_SCORES` dict literal. -/
def AUSTRALIA_CITY_SCORES_dict : List (String × Int) :=
  [("sydney", 40), ("melbourne", 40), ("brisbane", 40),
   ("perth", 35), ("adelaide", 35), ("canberra", 35),
   ("gold coast", 30), ("newcastle", 30), ("sunshine coast", 30),
   ("wollongong", 30), ("hobart", 30), ("geelong", 30),
   ("townsville", 25), ("cairns", 25), ("darwin", 25),
   ("toowoomba", 25), ("ballarat", 25), ("bendigo", 25)]

/-- `Scorer.AUSTRALIA_CITY_SCORES.get(city)`. -/
def AUSTRALIA_CITY_SCORES (c : String) : Option Int :=
  AUSTRALIA_CITY_SCORES_dict.lookup c

/-- The capacity tier table of `Scorer._score_capacity` after the
`int(capacity)` coercion succeeded. -/
def score_capacity_tier (n : Int) : Int :=
  if n ≥ 80 then 30
  else if n ≥ 60 then 25
  else if n ≥ 40 then 20
  else if n ≥ 20 then 15
  else 10

/-- `Scorer._score_capacity`: `None` (missing or stored `None`) and any
value `int()` rejects score 15; otherwise the tier table applies. -/
def score_capacity (capacity : Option Value) : Int :=
  match capacity with
  | none => 15
  | some vNone => 15
  | some (vInt n) => score_capacity_tier n
  | some (vStr s) =>
    match pyInt s with
    | some n => score_capacity_tier n
    | none => 15

/-- `any(k in s for k in ks)`. -/
def containsAny (s : String) (ks : List String) : Bool :=
  ks.any (fun k => strContains s k)

/-- `Scorer._score_location`: country routed by substring match on the
lowered country, city looked up exactly (lower-cased and stripped) in the
per-country table, with the Python falsy test `if score:` on the result;
everything else scores 20. -/
def score_location (city country : String) : Int :=
  if city = "" then 20
  else
    let city_lower := pyStrip (pyLower city)
    let country_lower := if country ≠ "" then pyLower country else ""
    if strContains country_lower "canada" || strContains country_lower "🇨🇦" then
      match CANADA_CITY_SCORES city_lower with
      | some score => if score = 0 then 20 else score
      | none => 20
    else if strContains country_lower "australia" || strContains country_lower "🇦🇺" then
      match AUSTRALIA_CITY_SCORES city_lower with
      | some score => if score = 0 then 20 else score
      | none => 20
    else 20

/-- `Scorer._score_stage`: case-insensitive substring keyword matching in
the source's fixed order against the `type` and `license_status` fields. -/
def score_stage (project_type license_status : String) : Int :=
  let pt := if project_type ≠ "" then pyLower project_type else ""
  let st := if license_status ≠ "" then pyLower license_status else ""
  if containsAny pt ["新建", "new", "新发"] then 30
  else if containsAny st ["新发", "new", "issued"] then 30
  else if containsAny pt ["扩建", "expansion", "expand"] then 25
  else if containsAny st ["扩容", "expansion"] then 25
  else if containsAny st ["变更", "change", "amendment"] then 20
  else if containsAny st ["续期", "renewal", "renew"] then 15
  else if containsAny pt ["交易", "sale", "出售"] then 25
  else if containsAny pt ["招标", "tender", "rfp"] then 25
  else 20

/-- `Scorer._calculate_bonus`: +5 for a government keyword in `name` or
`notes`, +5 for a school/community keyword; independent and additive. -/
def calculate_bonus (record : Record) : Int :=
  let notes := pyLower (pyStr (record.getD "notes" (vStr "")))
  let name := pyLower (pyStr (record.getD "name" (vStr "")))
  (if ["government", "public", "municipal", "政府"].any
      (fun k => strContains name k || strContains notes k) then 5 else 0) +
  (if ["school", "community", "学校", "社区"].any
      (fun k => strContains name k || strContains notes k) then 5 else 0)

/-- `Scorer._determine_priority`: the step function of the score against
the configured thresholds. -/
def determine_priority (score : Int) : String :=
  if score ≥ CRITICAL_THRESHOLD then "Critical"
  else if score ≥ HIGH_THRESHOLD then "High"
  else if score ≥ MEDIUM_THRESHOLD then "Medium"
  else "Low"

/-- `Scorer.score_record`: computes the three sub-scores, adds the bonus,
clamps at 100, derives the priority, and writes the six scoring fields
onto the record (Python mutates the dict in place and returns it; the
model returns the updated mapping). -/
def score_record (record : Record) : Record :=
  let capacity_score := score_capacity (record "capacity")
  let location_score := score_location (record.getStrD "city" "")
    (record.getStrD "country" "")
  let stage_score := score_stage (record.getStrD "type" "")
    (record.getStrD "license_status" "")
  let bonus := calculate_bonus record
  let total_score := min 100 (capacity_score + location_score + stage_score + bonus)
  let priority := determine_priority total_score
  (((((record.set "ai_score" (vInt total_score)).set
    "capacity_score" (vInt capacity_score)).set
    "location_score" (vInt location_score)).set
    "stage_score" (vInt stage_score)).set
    "priority" (vStr priority)).set
    "scoring_method" (vStr "rule_based")

/-! ## ClaudeAnalyzer (`src/analyzers/claude_analyzer.py`) -/

/-- The outcome of the Claude API call in `ClaudeAnalyzer.score_project`:
`failure` is any raised exception (network, API) or a `json.loads` parse
error on the response text; `parsed` carries the relevant fields of the
successfully parsed JSON dict (`none` when the key is absent, in which
case the source's `.get` defaults apply). -/
inductive AIOutcome where
  | failure
  | parsed (score : Option Int) (reasoning recommendation : Option String)

/-- `ClaudeAnalyzer.score_project`: when AI is disabled or the call fails,
the record is scored by the rule-based `score_record`; otherwise the
parsed score is clamped to `[0, 100]`, the priority recomputed from the
thresholds, and the AI fields written. -/
def score_project (enabled : Bool) (outcome : AIOutcome) (project : Record) :
    Record :=
  if enabled = false then score_record project
  else
    match outcome with
    | .failure => score_record project
    | .parsed score0 reasoning recommendation =>
      let score := max 0 (min 100 (score0.getD 50))
      let priority :=
        if score ≥ CRITICAL_THRESHOLD then "Critical"
        else if score ≥ HIGH_THRESHOLD then "High"
        else if score ≥ MEDIUM_THRESHOLD then "Medium"
        else "Low"
      ((((project.set "ai_score" (vInt score)).set
        "priority" (vStr priority)).set
        "ai_reasoning" (vStr (reasoning.getD ""))).set
        "ai_recommendation" (vStr (recommendation.getD ""))).set
        "scoring_method" (vStr "claude_ai")

theorem score_capacity_tier_bounds (n : Int) :
    10 ≤ score_capacity_tier n ∧ score_capacity_tier n ≤ 30 := by
  unfold score_capacity_tier
  split_ifs <;> omega

theorem score_capacity_bounds (v : Option Value) :
    10 ≤ score_capacity v ∧ score_capacity v ≤ 30 := by
  rcases v with _ | v
  · simp [score_capacity]
  · rcases v with s | n | _
    · rcases h : pyInt s with _ | n
      · simp [score_capacity, h]
      · simpa [score_capacity, h] using score_capacity_tier_bounds n
    · simpa [score_capacity] using score_capacity_tier_bounds n
    · simp [score_capacity]

theorem lookup_bounded (lo hi : Int) :
    ∀ (l : List (String × Int)), (∀ p ∈ l, lo ≤ p.2 ∧ p.2 ≤ hi) →
      ∀ c v, l.lookup c = some v → lo ≤ v ∧ v ≤ hi := by
  intro l
  induction l with
  | nil => intro _ c v h; cases h
  | cons p t ih =>
    obtain ⟨k, b⟩ := p
    intro hall c v h
    simp only [List.lookup] at h
    rcases hbe : c == k with _ | _ <;> rw [hbe] at h
    · exact ih (fun q hq => hall q (List.mem_cons_of_mem _ hq)) c v h
    · obtain rfl : b = v := by simpa using h
      exact hall (k, b) (List.mem_cons_self _ _)

theorem CANADA_CITY_SCORES_bounds (c : String) (v : Int)
    (h : CANADA_CITY_SCORES c = some v) : 25 ≤ v ∧ v ≤ 40 :=
  lookup_bounded 25 40 CANADA_CITY_SCORES_dict (by decide) c v h

theorem AUSTRALIA_CITY_SCORES_bounds (c : String) (v : Int)
    (h : AUSTRALIA_CITY_SCORES c = some v) : 25 ≤ v ∧ v ≤ 40 :=
  lookup_bounded 25 40 AUSTRALIA_CITY_SCORES_dict (by decide) c v h

theorem score_location_bounds (city country : String) :
    20 ≤ score_location city country ∧ score_location city country ≤ 40 := by
  simp only [score_location]
  split_ifs <;>
    first
      | omega
      | (rcases hca : CANADA_CITY_SCORES (pyStrip (pyLower city)) with _ | v1 <;>
          simp only [hca] <;>
          first
            | omega
            | (have hb := CANADA_CITY_SCORES_bounds _ _ hca; split_ifs <;> omega))
      | (rcases hau : AUSTRALIA_CITY_SCORES (pyStrip (pyLower city)) with _ | v2 <;>
          simp only [hau] <;>
          first
            | omega
            | (have hb := AUSTRALIA_CITY_SCORES_bounds _ _ hau; split_ifs <;> omega))


theorem score_stage_bounds (pt st : String) :
    15 ≤ score_stage pt st ∧ score_stage pt st ≤ 30 := by
  simp only [score_stage]
  repeat' split
  all_goals omega

theorem calculate_bonus_bounds (r : Record) :
    0 ≤ calculate_bonus r ∧ calculate_bonus r ≤ 10 := by
  simp only [calculate_bonus]
  repeat' split
  all_goals omega

/-- **C2**: `score_record` stores in `ai_score` the 100-clamped sum of the
three sub-scores plus the bonus; this value always lies in `[0, 100]`; the
three sub-scores stored on the record sum to at most `ai_score`; and the
stored `priority` is exactly `_determine_priority` applied to the stored
`ai_score` (the four-threshold step function), never independently set. -/
theorem c2_score_bounds_and_priority (r : Record) :
    ∃ ai : Int,
      (score_record r) "ai_score" = some (vInt ai) ∧
      ai = min 100 (score_capacity (r "capacity") +
        score_location (r.getStrD "city" "") (r.getStrD "country" "") +
        score_stage (r.getStrD "type" "") (r.getStrD "license_status" "") +
        calculate_bonus r) ∧
      0 ≤ ai ∧ ai ≤ 100 ∧
      (score_record r) "capacity_score" = some (vInt (score_capacity (r "capacity"))) ∧
      (score_record r) "location_score" =
        some (vInt (score_location (r.getStrD "city" "") (r.getStrD "country" ""))) ∧
      (score_record r) "stage_score" =
        some (vInt (score_stage (r.getStrD "type" "") (r.getStrD "license_status" ""))) ∧
      score_capacity (r "capacity") +
        score_location (r.getStrD "city" "") (r.getStrD "country" "") +
        score_stage (r.getStrD "type" "") (r.getStrD "license_status" "") ≤ ai ∧
      (score_record r) "priority" = some (vStr (determine_priority ai)) := by
  obtain ⟨hc1, hc2⟩ := score_capacity_bounds (r "capacity")
  obtain ⟨hl1, hl2⟩ := score_location_bounds (r.getStrD "city" "") (r.getStrD "country" "")
  obtain ⟨hs1, hs2⟩ := score_stage_bounds (r.getStrD "type" "") (r.getStrD "license_status" "")
  obtain ⟨hb1, hb2⟩ := calculate_bonus_bounds r
  refine ⟨_, ?_, rfl, ?_, ?_, ?_, ?_, ?_, ?_, ?_⟩
  · simp [score_record, Record.set]
  · rw [le_min_iff]; omega
  · exact min_le_left _ _
  · simp [score_record, Record.set]
  · simp [score_record, Record.set]
  · simp [score_record, Record.set]
  · rw [le_min_iff]; omega
  · simp [score_record, Record.set]

/-- **C10**: `score_record` writes only the six scoring keys; every other
key of the returned mapping (Python mutates and returns the same dict)
still holds exactly the input's value. -/
theorem c10_score_record_frame (r : Record) (k : String)
    (h : k ∉ (["ai_score", "capacity_score", "location_score",
      "stage_score", "priority", "scoring_method"] : List String)) :
    (score_record r) k = r k := by
  simp only [List.mem_cons, List.not_mem_nil, or_false, not_or] at h
  obtain ⟨h1, h2, h3, h4, h5, h6⟩ := h
  simp [score_record, Record.set, h1, h2, h3, h4, h5, h6]

/-- Witness for C10: scoring `rScoreEx` leaves its `name` field (and any
absent field such as `phone`) untouched. -/
theorem c10_score_record_frame_witness :
    (score_record rA) "name" = rA "name" ∧
    (score_record rA) "phone" = rA "phone" :=
  ⟨c10_score_record_frame rA "name" (by decide),
   c10_score_record_frame rA "phone" (by decide)⟩

/-- **C8**: whenever the AI scorer is disabled (missing configuration) or
the API call raises or its response fails JSON parsing,
`ClaudeAnalyzer.score_project` returns exactly the record that the
rule-based `Scorer.score_record` produces, tagged
`scoring_method = "rule_based"`; the fallback is per record and the
function is total, so a batch is never aborted. -/
theorem c8_ai_fallback (enabled : Bool) (outcome : AIOutcome) (project : Record)
    (h : enabled = false ∨ outcome = AIOutcome.failure) :
    score_project enabled outcome project = score_record project ∧
    (score_project enabled outcome project) "scoring_method" =
      some (vStr "rule_based") := by
  have heq : score_project enabled outcome project = score_record project := by
    rcases h with h | h
    · simp [score_project, h]
    · subst h
      cases enabled <;> simp [score_project]
  refine ⟨heq, ?_⟩
  rw [heq]
  simp [score_record, Record.set]

/-- Witness for C8: with AI enabled but the call failing, `rA` is scored
exactly as the rule-based scorer scores it. -/
theorem c8_ai_fallback_witness :
    score_project true AIOutcome.failure rA = score_record rA ∧
    (score_project true AIOutcome.failure rA) "scoring_method" =
      some (vStr "rule_based") :=
  c8_ai_fallback true AIOutcome.failure rA (Or.inr rfl)

/-! ## `datetime.strptime` for the pipeline's six date formats

CPython's `_strptime` compiles each format into a regex (`%Y` = exactly
four digits, `%m` = `1[0-2]|0[1-9]|[1-9]`, `%d` =
`3[01]|[12]\d|0[1-9]|[1-9]`, `%H` = `2[0-3]|[01]\d|\d`, `%M`/`%S` =
`[0-5]\d|\d`), takes the first match in backtracking order, raises unless
the match consumed the whole string, and then validates the date on the
real calendar.  The matchers below return the first match in the same
alternative order together with the unconsumed rest. -/

/-- Value of an ASCII digit. -/
def digitVal (c : Char) : Nat := c.toNat - 48

/-- Match exactly `n` digits, most significant first. -/
def takeDigitsAux : Nat → Nat → List Char → Option (Nat × List Char)
  | 0, acc, cs => some (acc, cs)
  | _ + 1, _, [] => none
  | n + 1, acc, c :: cs =>
    if isAsciiDigit c then takeDigitsAux n (acc * 10 + digitVal c) cs else none

/-- Match exactly `n` digits. -/
def takeDigits (n : Nat) (cs : List Char) : Option (Nat × List Char) :=
  takeDigitsAux n 0 cs

/-- The `%m` alternatives `1[0-2]|0[1-9]|[1-9]`, in regex order. -/
def candMonth : List Char → List (Nat × List Char)
  | c1 :: c2 :: rest =>
    (if c1 = '1' ∧ ('0' ≤ c2 ∧ c2 ≤ '2') then [(10 + digitVal c2, rest)] else []) ++
    (if c1 = '0' ∧ ('1' ≤ c2 ∧ c2 ≤ '9') then [(digitVal c2, rest)] else []) ++
    (if '1' ≤ c1 ∧ c1 ≤ '9' then [(digitVal c1, c2 :: rest)] else [])
  | [c1] => if '1' ≤ c1 ∧ c1 ≤ '9' then [(digitVal c1, [])] else []
  | [] => []

/-- The `%d` alternatives `3[01]|[12]\d|0[1-9]|[1-9]`, in regex order. -/
def candDay : List Char → List (Nat × List Char)
  | c1 :: c2 :: rest =>
    (if c1 = '3' ∧ (c2 = '0' ∨ c2 = '1') then [(30 + digitVal c2, rest)] else []) ++
    (if (c1 = '1' ∨ c1 = '2') ∧ isAsciiDigit c2 then
      [(10 * digitVal c1 + digitVal c2, rest)] else []) ++
    (if c1 = '0' ∧ ('1' ≤ c2 ∧ c2 ≤ '9') then [(digitVal c2, rest)] else []) ++
    (if '1' ≤ c1 ∧ c1 ≤ '9' then [(digitVal c1, c2 :: rest)] else [])
  | [c1] => if '1' ≤ c1 ∧ c1 ≤ '9' then [(digitVal c1, [])] else []
  | [] => []

/-- The `%H` alternatives `2[0-3]|[01]\d|\d`. -/
def candHour : List Char → List (Nat × List Char)
  | c1 :: c2 :: rest =>
    (if c1 = '2' ∧ ('0' ≤ c2 ∧ c2 ≤ '3') then [(20 + digitVal c2, rest)] else []) ++
    (if (c1 = '0' ∨ c1 = '1') ∧ isAsciiDigit c2 then
      [(10 * digitVal c1 + digitVal c2, rest)] else []) ++
    (if isAsciiDigit c1 then [(digitVal c1, c2 :: rest)] else [])
  | [c1] => if isAsciiDigit c1 then [(digitVal c1, [])] else []
  | [] => []

/-- The `%M` / `%S` alternatives `[0-5]\d|\d`. -/
def candMinSec : List Char → List (Nat × List Char)
  | c1 :: c2 :: rest =>
    (if ('0' ≤ c1 ∧ c1 ≤ '5') ∧ isAsciiDigit c2 then
      [(10 * digitVal c1 + digitVal c2, rest)] else []) ++
    (if isAsciiDigit c1 then [(digitVal c1, c2 :: rest)] else [])
  | [c1] => if isAsciiDigit c1 then [(digitVal c1, [])] else []
  | [] => []

/-- Match one literal character. -/
def litChar (c : Char) : List Char → Option (List Char)
  | d :: rest => if d = c then some rest else none
  | [] => none

/-- First regex match of `%Y<sep>%m<sep>%d` (covers `%Y-%m-%d` and
`%Y/%m/%d`), with the unconsumed rest. -/
def matchYMD (sep : Char) (cs : List Char) :
    Option ((Nat × Nat × Nat) × List Char) :=
  (takeDigits 4 cs).bind fun (y, r1) =>
    (litChar sep r1).bind fun r2 =>
      (candMonth r2).findSome? fun (m, r3) =>
        (litChar sep r3).bind fun r4 =>
          (candDay r4).findSome? fun (d, r5) =>
            some ((y, m, d), r5)

/-- First regex match of `%d/%m/%Y`. -/
def matchDMY (cs : List Char) : Option ((Nat × Nat × Nat) × List Char) :=
  (candDay cs).findSome? fun (d, r1) =>
    (litChar '/' r1).bind fun r2 =>
      (candMonth r2).findSome? fun (m, r3) =>
        (litChar '/' r3).bind fun r4 =>
          (takeDigits 4 r4).bind fun (y, r5) =>
            some ((y, m, d), r5)

/-- First regex match of `%m/%d/%Y`. -/
def matchMDY (cs : List Char) : Option ((Nat × Nat × Nat) × List Char) :=
  (candMonth cs).findSome? fun (m, r1) =>
    (litChar '/' r1).bind fun r2 =>
      (candDay r2).findSome? fun (d, r3) =>
        (litChar '/' r3).bind fun r4 =>
          (takeDigits 4 r4).bind fun (y, r5) =>
            some ((y, m, d), r5)

/-- First regex match of `%Y-%m-%d %H:%M:%S` (the time is parsed and
discarded; its digit alternatives are always in range). -/
def matchYMDHMS (cs : List Char) : Option ((Nat × Nat × Nat) × List Char) :=
  (takeDigits 4 cs).bind fun (y, r1) =>
    (litChar '-' r1).bind fun r2 =>
      (candMonth r2).findSome? fun (m, r3) =>
        (litChar '-' r3).bind fun r4 =>
          (candDay r4).findSome? fun (d, r5) =>
            (litChar ' ' r5).bind fun r6 =>
              (candHour r6).findSome? fun (_, r7) =>
                (litChar ':' r7).bind fun r8 =>
                  (candMinSec r8).findSome? fun (_, r9) =>
                    (litChar ':' r9).bind fun r10 =>
                      (candMinSec r10).findSome? fun (_, r11) =>
                        some ((y, m, d), r11)

/-- First regex match of `%Y%m%d`. -/
def matchYMDcompact (cs : List Char) : Option ((Nat × Nat × Nat) × List Char) :=
  (takeDigits 4 cs).bind fun (y, r1) =>
    (candMonth r1).findSome? fun (m, r2) =>
      (candDay r2).findSome? fun (d, r3) =>
        some ((y, m, d), r3)

/-- Python's proleptic-Gregorian leap-year rule. -/
def isLeapYear (y : Nat) : Bool := y % 4 = 0 ∧ (y % 100 ≠ 0 ∨ y % 400 = 0)

/-- Days in a month. -/
def daysInMonth (y m : Nat) : Nat :=
  if m = 2 then (if isLeapYear y then 29 else 28)
  else if m = 4 ∨ m = 6 ∨ m = 9 ∨ m = 11 then 30
  else 31

/-- `datetime(year, month, day)` succeeds. -/
def validDate : Nat × Nat × Nat → Bool
  | (y, m, d) => 1 ≤ y ∧ 1 ≤ m ∧ m ≤ 12 ∧ 1 ≤ d ∧ d ≤ daysInMonth y m

/-- Run one format: `strptime` succeeds when the first regex match
consumed the whole string and the date is a real calendar date. -/
def runFmt (m : List Char → Option ((Nat × Nat × Nat) × List Char))
    (cs : List Char) : Option (Nat × Nat × Nat) :=
  match m cs with
  | some (t, []) => if validDate t then some t else none
  | _ => none

/-- `DataValidator._validate_date(v)`: `str(v)` parses under one of the
four formats `%Y-%m-%d`, `%Y/%m/%d`, `%d/%m/%Y`, `%m/%d/%Y`. -/
def validate_date (v : Value) : Bool :=
  let cs := (pyStr v).data
  (runFmt (matchYMD '-') cs).isSome || (runFmt (matchYMD '/') cs).isSome ||
    (runFmt matchDMY cs).isSome || (runFmt matchMDY cs).isSome

/-- Zero-padded two-digit rendering (`strftime` `%m`, `%d`). -/
def pad2 (n : Nat) : List Char := [Nat.digitChar (n / 10 % 10), Nat.digitChar (n % 10)]

/-- Zero-padded four-digit rendering (`strftime` `%Y`). -/
def pad4 (n : Nat) : List Char :=
  [Nat.digitChar (n / 1000 % 10), Nat.digitChar (n / 100 % 10),
   Nat.digitChar (n / 10 % 10), Nat.digitChar (n % 10)]

/-- `dt.strftime('%Y-%m-%d')`. -/
def isoOfDate : Nat × Nat × Nat → String
  | (y, m, d) => String.mk (pad4 y ++ '-' :: (pad2 m ++ '-' :: pad2 d))

/-- The ordered input-format list of `format_date` in `utils/helpers.py`. -/
def tryInputFormats (cs : List Char) : Option (Nat × Nat × Nat) :=
  (runFmt (matchYMD '-') cs) <|> (runFmt (matchYMD '/') cs) <|>
    (runFmt matchDMY cs) <|> (runFmt matchMDY cs) <|>
    (runFmt matchYMDHMS cs) <|> (runFmt matchYMDcompact cs)

/-- `format_date` from `utils/helpers.py` (output format `%Y-%m-%d`):
`None` gives `''`; a string is stripped and tried against the six input
formats, re-emitted as ISO on success and returned unchanged on failure;
any other value is returned as `str(value)`. -/
def format_date (v : Value) : String :=
  match v with
  | vNone => ""
  | vInt n => toString n
  | vStr s =>
    match tryInputFormats (pyStrip s).data with
    | some t => isoOfDate t
    | none => s

/-! ## DataValidator (`src/utils/validators.py`) -/

/-- `DataValidator.REQUIRED_FIELDS.get(record_type, REQUIRED_FIELDS['new_project'])`. -/
def REQUIRED_FIELDS (record_type : String) : List String :=
  if record_type = "new_project" then ["name", "country", "source", "discovered_date"]
  else if record_type = "sale" then ["name", "country", "source", "discovered_date"]
  else if record_type = "tender" then ["name", "country", "source", "published_date"]
  else ["name", "country", "source", "discovered_date"]

/-- The error text for a missing required field. -/
def missingFieldError (field : String) : String := "缺少必填字段: " ++ field

/-- The per-field required check of `validate_record`: an error when the
value is `None` (or the key is absent) or is a string that is blank after
trimming. -/
def required_error (r : Record) (field : String) : Option String :=
  match r field with
  | none => some (missingFieldError field)
  | some vNone => some (missingFieldError field)
  | some (vStr s) => if pyStrip s = "" then some (missingFieldError field) else none
  | some (vInt _) => none

/-- The capacity section of `validate_record`: a string is coerced with
`int()` (failure is one error and ends the section, since the value stays
a string); a number below zero or above 500 each add one error. -/
def capacity_errors (r : Record) : List String :=
  match r "capacity" with
  | none => []
  | some vNone => []
  | some (vStr s) =>
    match pyInt s with
    | none => ["容量值无效: " ++ s]
    | some n =>
      (if n < 0 then ["容量不能为负数: " ++ toString n] else []) ++
      (if n > 500 then ["容量异常过大（>500）: " ++ toString n ++ "，请核实"] else [])
  | some (vInt n) =>
    (if n < 0 then ["容量不能为负数: " ++ toString n] else []) ++
    (if n > 500 then ["容量异常过大（>500）: " ++ toString n ++ "，请核实"] else [])

/-- The date section of `validate_record`: each truthy date field must
parse under one of the four formats. -/
def date_errors (r : Record) : List String :=
  ["discovered_date", "published_date", "deadline_date"].filterMap fun f =>
    match r f with
    | some v =>
      if pyTruthy (some v) then
        if validate_date v then none
        else some ("日期格式无效: " ++ f ++ "=" ++ pyStr v)
      else none
    | none => none

/-- The recognized country tokens of `validate_record`. -/
def valid_countries : List String :=
  ["canada", "australia", "ca", "au", "🇨🇦", "🇦🇺", "🇨🇦 canada", "🇦🇺 australia"]

/-- The country section of `validate_record`: a non-empty lowered country
must contain one of the recognized tokens as a substring. -/
def country_errors (r : Record) : List String :=
  let country := pyLower (r.getStrD "country" "")
  if country ≠ "" ∧ ¬ (valid_countries.any fun v => strContains country v) then
    ["不支持的国家: " ++ country]
  else []

/-- `DataValidator.validate_record`: collects the error strings in source
order and returns `(len(errors) == 0, errors)`. -/
def validate_record (record : Record) (record_type : String) :
    Bool × List String :=
  let errors := (REQUIRED_FIELDS record_type).filterMap (required_error record) ++
    capacity_errors record ++ date_errors record ++ country_errors record
  (errors.isEmpty, errors)

theorem missingFieldError_inj {f g : String}
    (h : missingFieldError f = missingFieldError g) : f = g := by
  have hd := congrArg String.data h
  simp only [missingFieldError, String.data_append] at hd
  exact String.ext (List.append_cancel_left hd)

theorem required_error_eq (r : Record) (g e : String)
    (h : required_error r g = some e) : e = missingFieldError g := by
  simp only [required_error] at h
  split at h <;> simp_all

theorem count_required_not_mem (r : Record) (f : String) :
    ∀ (l : List String), f ∉ l →
      (l.filterMap (required_error r)).count (missingFieldError f) = 0 := by
  intro l
  induction l with
  | nil => intro _; rfl
  | cons g t ih =>
    intro hnot
    have hfg : f ≠ g := fun hh => hnot (hh ▸ List.mem_cons_self _ _)
    have hft : f ∉ t := fun hh => hnot (List.mem_cons_of_mem _ hh)
    rcases he : required_error r g with _ | e
    · simpa [List.filterMap_cons, he] using ih hft
    · have he2 : e = missingFieldError g := required_error_eq r g e he
      subst he2
      have hne : ¬ (missingFieldError f = missingFieldError g) := fun hh =>
        hfg (missingFieldError_inj hh)
      simp [List.filterMap_cons, he, List.count_cons, beq_iff_eq, hne, ih hft]

theorem count_required (r : Record) :
    ∀ (l : List String), l.Nodup → ∀ f ∈ l,
      (l.filterMap (required_error r)).count (missingFieldError f) =
        if (required_error r f).isSome then 1 else 0 := by
  intro l
  induction l with
  | nil => intro _ f hf; cases hf
  | cons g t ih =>
    intro hnd f hf
    obtain ⟨hg, hnt⟩ := List.nodup_cons.mp hnd
    rcases List.mem_cons.mp hf with rfl | hft
    · rcases he : required_error r f with _ | e
      · rw [List.filterMap_cons, he]
        simp only [he, Option.isSome_none, Bool.false_eq_true, if_false]
        exact count_required_not_mem r f t hg
      · have he2 : e = missingFieldError f := required_error_eq r f e he
        subst he2
        rw [List.filterMap_cons, he, List.count_cons]
        have h0 := count_required_not_mem r f t hg
        simp [he, h0]
    · have hfg : f ≠ g := fun hh => hg (hh ▸ hft)
      rcases he : required_error r g with _ | e
      · simpa [List.filterMap_cons, he] using ih hnt f hft
      · have he2 : e = missingFieldError g := required_error_eq r g e he
        subst he2
        have hne : ¬ (missingFieldError f = missingFieldError g) := fun hh =>
          hfg (missingFieldError_inj hh)
        simp [List.filterMap_cons, he, List.count_cons, beq_iff_eq, hne, ih hnt f hft]

theorem head_capacity_errors (r : Record) (e : String)
    (h : e ∈ capacity_errors r) : e.data.head? = some '容' := by
  simp only [capacity_errors] at h
  split at h
  · cases h
  · cases h
  · rename_i s
    split at h
    · simp only [List.mem_singleton] at h; subst h; rfl
    · rcases List.mem_append.mp h with h2 | h2 <;> split at h2 <;>
        first
          | (simp only [List.mem_singleton] at h2; subst h2; rfl)
          | cases h2
  · rcases List.mem_append.mp h with h2 | h2 <;> split at h2 <;>
      first
        | (simp only [List.mem_singleton] at h2; subst h2; rfl)
        | cases h2

theorem head_date_errors (r : Record) (e : String)
    (h : e ∈ date_errors r) : e.data.head? = some '日' := by
  simp only [date_errors, List.mem_filterMap] at h
  obtain ⟨f, _, hfe⟩ := h
  split at hfe
  · split at hfe
    · split at hfe
      · cases hfe
      · simp only [Option.some.injEq] at hfe; subst hfe; rfl
    · cases hfe
  · cases hfe

theorem head_country_errors (r : Record) (e : String)
    (h : e ∈ country_errors r) : e.data.head? = some '不' := by
  simp only [country_errors] at h
  split at h
  · simp only [List.mem_singleton] at h; subst h; rfl
  · cases h

theorem missingFieldError_not_in_rest (r : Record) (f : String) :
    missingFieldError f ∉ capacity_errors r ++ (date_errors r ++ country_errors r) := by
  intro hmem
  have hhead : (missingFieldError f).data.head? = some '缺' := rfl
  rcases List.mem_append.mp hmem with h | h
  · rw [head_capacity_errors r _ h] at hhead
    exact absurd (Option.some.inj hhead) (by decide)
  · rcases List.mem_append.mp h with h2 | h2
    · rw [head_date_errors r _ h2] at hhead
      exact absurd (Option.some.inj hhead) (by decide)
    · rw [head_country_errors r _ h2] at hhead
      exact absurd (Option.some.inj hhead) (by decide)

/-- **C7**: `validate_record` always returns a pair whose Bool is exactly
the emptiness of the error list; each required field that is missing or
blank after trimming (that is, `required_error` fires for it) contributes
exactly one error string of its own to the output, and a field that is
present and non-blank contributes none; and an integer capacity above 500
adds the "implausible" error to the list while the function still returns
normally (it is total, never raising). -/
theorem c7_validate_record_contract (r : Record) (t : String) :
    ((validate_record r t).1 = (validate_record r t).2.isEmpty) ∧
    (∀ f ∈ REQUIRED_FIELDS t,
      (validate_record r t).2.count (missingFieldError f) =
        if (required_error r f).isSome then 1 else 0) ∧
    (∀ n : Int, r "capacity" = some (vInt n) → 500 < n →
      ("容量异常过大（>500）: " ++ toString n ++ "，请核实") ∈
        (validate_record r t).2) := by
  refine ⟨rfl, ?_, ?_⟩
  · intro f hf
    have hnd : (REQUIRED_FIELDS t).Nodup := by
      unfold REQUIRED_FIELDS
      split_ifs <;> decide
    have hcount := count_required r (REQUIRED_FIELDS t) hnd f hf
    have hzero : (capacity_errors r ++ (date_errors r ++ country_errors r)).count
        (missingFieldError f) = 0 :=
      List.count_eq_zero.mpr (missingFieldError_not_in_rest r f)
    simp only [validate_record, List.append_assoc, List.count_append] at *
    omega
  · intro n hcap hn
    have hmem : ("容量异常过大（>500）: " ++ toString n ++ "，请核实") ∈
        capacity_errors r := by
      have h1 : ¬ (n < 0) := by omega
      simp [capacity_errors, hcap, h1, hn]
    simp only [validate_record, List.append_assoc]
    exact List.mem_append.mpr (Or.inr (List.mem_append.mpr (Or.inl hmem)))

/-- A record missing its `name`, with a blank `source` and an implausible
capacity, for the validator witness. -/
def rInvalid : Record := recOfList
  [("country", vStr "Canada"), ("source", vStr "  "),
   ("discovered_date", vStr "2024-01-15"), ("capacity", vInt 600)]

/-- Witness for C7: on `rInvalid` the validator reports invalid, one error
each for the missing `name` and blank `source`, none for the present
`country`, and the implausible-capacity error, without raising. -/
theorem c7_validate_record_contract_witness :
    ((validate_record rInvalid "new_project").1 =
      (validate_record rInvalid "new_project").2.isEmpty) ∧
    (validate_record rInvalid "new_project").2.count (missingFieldError "name") = 1 ∧
    (validate_record rInvalid "new_project").2.count (missingFieldError "source") = 1 ∧
    (validate_record rInvalid "new_project").2.count (missingFieldError "country") = 0 ∧
    ("容量异常过大（>500）: " ++ toString (600 : Int) ++ "，请核实") ∈
      (validate_record rInvalid "new_project").2 := by
  obtain ⟨h1, h2, h3⟩ := c7_validate_record_contract rInvalid "new_project"
  refine ⟨h1, ?_, ?_, ?_, h3 600 (by decide) (by decide)⟩
  · have := h2 "name" (by decide)
    rwa [if_pos (by decide)] at this
  · have := h2 "source" (by decide)
    rwa [if_pos (by decide)] at this
  · have := h2 "country" (by decide)
    rwa [if_neg (by decide)] at this

/-! ## DataValidator normalization helpers and DataProcessor.normalize_record -/

/-- The `DataValidator.CANADA_PROVINCES` dict literal. -/
def CANADA_PROVINCES : List (String × String) :=
  [("on", "Ontario"), ("ontario", "Ontario"),
   ("bc", "British Columbia"), ("british columbia", "British Columbia"),
   ("ab", "Alberta"), ("alberta", "Alberta"),
   ("qc", "Quebec"), ("quebec", "Quebec"),
   ("mb", "Manitoba"), ("manitoba", "Manitoba"),
   ("sk", "Saskatchewan"), ("saskatchewan", "Saskatchewan"),
   ("ns", "Nova Scotia"), ("nova scotia", "Nova Scotia"),
   ("nb", "New Brunswick"), ("new brunswick", "New Brunswick"),
   ("nl", "Newfoundland and Labrador"), ("newfoundland", "Newfoundland and Labrador"),
   ("pe", "Prince Edward Island"), ("pei", "Prince Edward Island"),
   ("nt", "Northwest Territories"), ("northwest territories", "Northwest Territories"),
   ("yt", "Yukon"), ("yukon", "Yukon"),
   ("nu", "Nunavut"), ("nunavut", "Nunavut")]

/-- The `DataValidator.AUSTRALIA_STATES` dict literal. -/
def AUSTRALIA_STATES : List (String × String) :=
  [("nsw", "New South Wales"), ("new south wales", "New South Wales"),
   ("vic", "Victoria"), ("victoria", "Victoria"),
   ("qld", "Queensland"), ("queensland", "Queensland"),
   ("wa", "Western Australia"), ("western australia", "Western Australia"),
   ("sa", "South Australia"), ("south australia", "South Australia"),
   ("tas", "Tasmania"), ("tasmania", "Tasmania"),
   ("act", "Australian Capital Territory"),
   ("australian capital territory", "Australian Capital Territory"),
   ("nt", "Northern Territory"), ("northern territory", "Northern Territory")]

/-- `DataValidator.normalize_country`: falsy input gives `''`; a recognized
variant (lower-cased, stripped) maps to the canonical flagged display
form; anything else passes through unchanged. -/
def normalize_country (country : String) : String :=
  if country = "" then ""
  else
    let cl := pyStrip (pyLower country)
    if cl = "canada" ∨ cl = "ca" ∨ cl = "can" ∨ cl = "🇨🇦" then "🇨🇦 Canada"
    else if cl = "australia" ∨ cl = "au" ∨ cl = "aus" ∨ cl = "🇦🇺" then "🇦🇺 Australia"
    else country

/-- `DataValidator.normalize_province`: falsy province gives `''`; the
country (lower-cased, not stripped) routes to the per-country table keyed
by the lower-cased stripped province, with `province.title()` as the
lookup default and for unrecognized countries. -/
def normalize_province (province country : String) : String :=
  if province = "" then ""
  else
    let pl := pyStrip (pyLower province)
    if pyLower country = "canada" ∨ pyLower country = "ca" ∨ pyLower country = "🇨🇦" then
      match CANADA_PROVINCES.lookup pl with
      | some v => v
      | none => pyTitle province
    else if pyLower country = "australia" ∨ pyLower country = "au" ∨
        pyLower country = "🇦🇺" then
      match AUSTRALIA_STATES.lookup pl with
      | some v => v
      | none => pyTitle province
    else pyTitle province

/-- The character class kept by `re.sub(r'[^\d+]', '', phone)`. -/
def phoneChar (c : Char) : Bool := isAsciiDigit c || c = '+'

/-- The formatting tail of `clean_phone`, applied to the already-cleaned
character list: 10-digit and leading-one 11-digit numbers are formatted
North-America style, everything else is returned as-is. -/
def formatPhone (cleaned : List Char) : String :=
  if cleaned.length = 10 then
    String.mk ('(' :: cleaned.take 3 ++ ')' :: ' ' :: ((cleaned.drop 3).take 3 ++
      '-' :: cleaned.drop 6))
  else if cleaned.length = 11 ∧ cleaned.head? = some '1' then
    String.mk ('+' :: '1' :: ' ' :: '(' :: (cleaned.drop 1).take 3 ++ ')' :: ' ' ::
      ((cleaned.drop 4).take 3 ++ '-' :: cleaned.drop 7))
  else String.mk cleaned

/-- `DataValidator.clean_phone`: falsy input gives `''`; otherwise all
characters except digits and `+` are removed (`re.sub(r'[^\d+]', '', str(phone))`)
and the result is formatted by `formatPhone`. -/
def clean_phone (v : Value) : String :=
  if pyTruthy (some v) = false then ""
  else formatPhone ((pyStr v).data.filter phoneChar)

/-- `[a-zA-Z0-9._%+-]`, the local part class of the email pattern. -/
def emailLocalChar (c : Char) : Bool :=
  isAsciiAlpha c || isAsciiDigit c || c = '.' || c = '_' || c = '%' || c = '+' || c = '-'

/-- `[a-zA-Z0-9.-]`, the domain class of the email pattern. -/
def emailDomainChar (c : Char) : Bool :=
  isAsciiAlpha c || isAsciiDigit c || c = '.' || c = '-'

/-- Full match of `^[a-zA-Z0-9._%+-]+@[a-zA-Z0-9.-]+\.[a-zA-Z]{2,}$`: the
local part is the maximal run of local characters (the class excludes
`@`, so the boundary is forced); the rest matches `D+\.A{2,}` exactly
when it splits as a non-empty domain run, a dot, and at least two
letters. -/
def emailMatch (l : List Char) : Bool :=
  let lp := l.takeWhile emailLocalChar
  let rest := l.drop lp.length
  lp ≠ [] &&
    (match rest with
     | '@' :: dom =>
       (List.range dom.length).any fun i =>
         let d := dom.take i
         let t := dom.drop i
         d ≠ [] && d.all emailDomainChar &&
           (match t with
            | '.' :: tld => 2 ≤ tld.length && tld.all isAsciiAlpha
            | _ => false)
     | _ => false)

/-- `DataValidator.clean_email`: falsy input gives `''`; otherwise the
value is stripped and lower-cased and kept only if it matches the email
pattern. -/
def clean_email (v : Value) : String :=
  if pyTruthy (some v) = false then ""
  else
    let e := pyLower (pyStrip (pyStr v))
    if emailMatch e.data then e else ""

/-- The first maximal digit run of `re.findall(r'\d+', s)`. -/
def firstDigitRun : List Char → Option (List Char)
  | [] => none
  | c :: t =>
    if isAsciiDigit c then some (c :: t.takeWhile isAsciiDigit)
    else firstDigitRun t

/-- Digit-list value, most significant first. -/
def digitsToNat (l : List Char) : Nat := l.foldl (fun a c => a * 10 + digitVal c) 0

/-- `DataValidator.clean_capacity`: `None` and `''` give `None`; a number
is truncated to int; a string yields its first digit run, if any. -/
def clean_capacity : Option Value → Option Int
  | none => none
  | some vNone => none
  | some (vInt n) => some n
  | some (vStr s) =>
    if s = "" then none
    else
      match firstDigitRun s.data with
      | some ds => some (digitsToNat ds : Int)
      | none => none

/-- `DataProcessor.normalize_record`, with the `get_today()` clock passed
in as `today`.  The output dict has the fixed base keys; the
type-specific optional keys are present exactly when present in the
input; every other key is absent. -/
def normalize_record (today : String) (record : Record) : Record := fun k =>
  if k = "name" then some (vStr (clean_string (record.getD "name" (vStr ""))))
  else if k = "address" then some (vStr (clean_string (record.getD "address" (vStr ""))))
  else if k = "city" then
    some (vStr (pyTitle (clean_string (record.getD "city" (vStr "")))))
  else if k = "country" then
    some (vStr (normalize_country (record.getStrD "country" "")))
  else if k = "province" then
    some (vStr (normalize_province (record.getStrD "province" "")
      (record.getStrD "country" "")))
  else if k = "capacity" then
    some (match clean_capacity (record "capacity") with
          | some n => vInt n
          | none => vNone)
  else if k = "phone" then some (vStr (clean_phone (record.getD "phone" (vStr ""))))
  else if k = "email" then some (vStr (clean_email (record.getD "email" (vStr ""))))
  else if k = "license_number" then
    some (vStr (clean_string (record.getD "license_number" (vStr ""))))
  else if k = "license_status" then some (record.getD "license_status" (vStr ""))
  else if k = "discovered_date" then
    some (vStr (format_date (if pyTruthy (record "discovered_date")
      then record.getD "discovered_date" vNone else vStr today)))
  else if k = "source" then some (record.getD "source" (vStr ""))
  else if k = "source_url" then some (record.getD "source_url" (vStr ""))
  else if k = "ai_score" then some (record.getD "ai_score" (vInt 50))
  else if k = "priority" then some (record.getD "priority" (vStr "Medium"))
  else if k = "ai_reasoning" then some (record.getD "ai_reasoning" (vStr ""))
  else if k = "ai_recommendation" then some (record.getD "ai_recommendation" (vStr ""))
  else if k = "notes" then some (record.getD "notes" (vStr ""))
  else if k = "type" then some (record.getD "type" (vStr "新建"))
  else if k = "price" ∨ k = "annual_revenue" ∨ k = "cash_flow" ∨
      k = "lease_remaining" ∨ k = "property_type" ∨ k = "contract_value" ∨
      k = "tender_type" ∨ k = "organization" then
    if (record k).isSome then some (record.getD k (vStr "")) else none
  else if k = "published_date" ∨ k = "deadline_date" then
    if (record k).isSome then some (vStr (format_date (record.getD k vNone))) else none
  else none

/-! ### Fixed points of `strip` and whitespace collapsing -/

/-- Both ends free of Python whitespace. -/
def strippedOK (l : List Char) : Prop :=
  (∀ c ∈ l.head?, isPySpace c = false) ∧ (∀ c ∈ l.getLast?, isPySpace c = false)

theorem dropWhile_eq_self_of_head (p : Char → Bool) (l : List Char)
    (h : ∀ c ∈ l.head?, p c = false) : l.dropWhile p = l := by
  cases l with
  | nil => rfl
  | cons c t =>
    have := h c (by simp)
    simp [List.dropWhile, this]

theorem head_dropWhile_false (p : Char → Bool) (l : List Char) :
    ∀ c ∈ (l.dropWhile p).head?, p c = false := by
  induction l with
  | nil => intro c hc; cases hc
  | cons d t ih =>
    intro c hc
    by_cases hd : p d
    · rw [List.dropWhile_cons_of_pos hd] at hc
      exact ih c hc
    · rw [List.dropWhile_cons_of_neg hd] at hc
      simp only [List.head?_cons, Option.mem_def, Option.some.injEq] at hc
      subst hc
      simpa using hd

theorem getLast_dropWhile_eq (p : Char → Bool) (l : List Char)
    (h : l.dropWhile p ≠ []) : (l.dropWhile p).getLast? = l.getLast? := by
  induction l with
  | nil => rfl
  | cons d t ih =>
    by_cases hd : p d
    · rw [List.dropWhile_cons_of_pos hd] at h ⊢
      have ht : t ≠ [] := by
        intro he
        subst he
        exact h rfl
      rw [ih h]
      cases t with
      | nil => exact absurd rfl ht
      | cons e u => rw [List.getLast?_cons_cons]
    · rw [List.dropWhile_cons_of_neg hd]

theorem strippedOK_stripChars (l : List Char) : strippedOK (stripChars l) := by
  constructor
  · intro c hc
    rw [stripChars, List.head?_reverse] at hc
    by_cases hW : (l.dropWhile isPySpace).reverse.dropWhile isPySpace = []
    · rw [hW] at hc; cases hc
    · rw [getLast_dropWhile_eq _ _ hW, List.getLast?_reverse] at hc
      exact head_dropWhile_false isPySpace l c hc
  · intro c hc
    rw [stripChars, List.getLast?_reverse] at hc
    exact head_dropWhile_false isPySpace _ c hc

theorem stripChars_eq_self (l : List Char) (h : strippedOK l) : stripChars l = l := by
  obtain ⟨h1, h2⟩ := h
  rw [stripChars, dropWhile_eq_self_of_head _ _ h1,
    dropWhile_eq_self_of_head _ _ (by simpa using h2), List.reverse_reverse]

theorem stripChars_idem (l : List Char) :
    stripChars (stripChars l) = stripChars l :=
  stripChars_eq_self _ (strippedOK_stripChars l)

theorem stripChars_of_noWS (l : List Char) (h : ∀ c ∈ l, isPySpace c = false) :
    stripChars l = l := by
  refine stripChars_eq_self l ⟨?_, ?_⟩
  · intro c hc
    refine h c ?_
    cases l with
    | nil => cases hc
    | cons d t =>
      simp only [List.head?_cons, Option.mem_def, Option.some.injEq] at hc
      subst hc
      exact List.mem_cons_self _ _
  · intro c hc
    refine h c ?_
    cases l with
    | nil => cases hc
    | cons d t =>
      rw [List.getLast?_eq_getLast _ (by simp)] at hc
      simp only [Option.mem_def, Option.some.injEq] at hc
      subst hc
      exact List.getLast_mem (by simp)

/-! ### Fixed points of whitespace collapsing -/

/-- The shape `re.sub(r'\s+', ' ', s)` guarantees: every whitespace
character is a plain space and no two whitespace characters are
adjacent. -/
def WSok (l : List Char) : Prop :=
  (∀ c ∈ l, isPySpace c = true → c = ' ') ∧
  l.Chain' (fun a b => ¬ (isPySpace a = true ∧ isPySpace b = true))

theorem collapseWS_nil : collapseWS [] = [] := by rw [collapseWS]

theorem collapseWS_cons_pos (c : Char) (cs : List Char) (h : isPySpace c = true) :
    collapseWS (c :: cs) = ' ' :: collapseWS (cs.dropWhile isPySpace) := by
  rw [collapseWS]
  simp [h]

theorem collapseWS_cons_neg (c : Char) (cs : List Char) (h : isPySpace c = false) :
    collapseWS (c :: cs) = c :: collapseWS cs := by
  rw [collapseWS]
  simp [h]

theorem head_collapseWS (l : List Char) :
    ∀ c ∈ (collapseWS l).head?, ∀ d ∈ l.head?, isPySpace c = isPySpace d := by
  cases l with
  | nil =>
    intro c hc
    rw [collapseWS_nil] at hc
    cases hc
  | cons d t =>
    intro c hc e he
    simp only [List.head?_cons, Option.mem_def, Option.some.injEq] at he
    obtain rfl : d = e := he
    by_cases hd : isPySpace d
    · rw [collapseWS_cons_pos d t hd] at hc
      simp only [List.head?_cons, Option.mem_def, Option.some.injEq] at hc
      obtain rfl : ' ' = c := hc
      rw [hd]
      decide
    · rw [collapseWS_cons_neg d t (by simpa using hd)] at hc
      simp only [List.head?_cons, Option.mem_def, Option.some.injEq] at hc
      obtain rfl : d = c := hc
      rfl

theorem WSok_collapseWS (l : List Char) : WSok (collapseWS l) := by
  induction l using collapseWS.induct with
  | case1 =>
    rw [collapseWS_nil]
    exact ⟨(by intro c hc; cases hc), List.chain'_nil⟩
  | case2 c cs h ih =>
    obtain ⟨ih1, ih2⟩ := ih
    rw [collapseWS_cons_pos c cs h]
    refine ⟨?_, ?_⟩
    · intro e he hw
      rcases List.mem_cons.mp he with rfl | he2
      · rfl
      · exact ih1 e he2 hw
    · rw [List.chain'_cons']
      refine ⟨?_, ih2⟩
      intro y hy
      rintro ⟨-, h2⟩
      rcases hh : (cs.dropWhile isPySpace).head? with _ | d
      · rw [List.head?_eq_none_iff] at hh
        rw [hh, collapseWS_nil] at hy
        cases hy
      · have hws := head_collapseWS (cs.dropWhile isPySpace) y hy d (by rw [hh]; rfl)
        have hd := head_dropWhile_false isPySpace cs d (by rw [hh]; rfl)
        rw [hws, hd] at h2
        cases h2
  | case3 c cs h ih =>
    obtain ⟨ih1, ih2⟩ := ih
    rw [collapseWS_cons_neg c cs (by simpa using h)]
    refine ⟨?_, ?_⟩
    · intro e he hw
      rcases List.mem_cons.mp he with rfl | he2
      · exact absurd hw (by simpa using h)
      · exact ih1 e he2 hw
    · rw [List.chain'_cons']
      refine ⟨?_, ih2⟩
      intro y hy
      rintro ⟨h1, -⟩
      exact absurd h1 (by simpa using h)

theorem collapseWS_eq_self (l : List Char) (h : WSok l) : collapseWS l = l := by
  induction l with
  | nil => exact collapseWS_nil
  | cons c cs ih =>
    obtain ⟨h1, h2⟩ := h
    by_cases hc : isPySpace c
    · have hsp : c = ' ' := h1 c (by simp) hc
      rw [collapseWS_cons_pos c cs hc]
      have hdrop : cs.dropWhile isPySpace = cs := by
        refine dropWhile_eq_self_of_head _ _ ?_
        intro d hd
        rcases hh : cs.head? with _ | e
        · rw [hh] at hd; cases hd
        · rw [hh] at hd
          simp only [Option.mem_def, Option.some.injEq] at hd
          obtain rfl : e = d := hd
          have := (List.chain'_cons'.mp h2).1 e (by rw [hh]; rfl)
          by_cases hw : isPySpace e
          · exact absurd ⟨hc, hw⟩ this
          · simpa using hw
      rw [hdrop, hsp]
      have ihr : collapseWS cs = cs := by
        refine ih ⟨?_, (List.chain'_cons'.mp h2).2⟩
        intro e he hw
        exact h1 e (List.mem_cons_of_mem _ he) hw
      rw [ihr]
    · rw [collapseWS_cons_neg c cs (by simpa using hc)]
      have ihr : collapseWS cs = cs := by
        refine ih ⟨?_, (List.chain'_cons'.mp h2).2⟩
        intro e he hw
        exact h1 e (List.mem_cons_of_mem _ he) hw
      rw [ihr]

theorem WSok_stripChars (l : List Char) (h : WSok l) : WSok (stripChars l) := by
  obtain ⟨h1, h2⟩ := h
  have hmem : ∀ c ∈ stripChars l, c ∈ l := by
    intro c hc
    rw [stripChars, List.mem_reverse] at hc
    have hc2 := (List.dropWhile_sublist isPySpace).subset hc
    rw [List.mem_reverse] at hc2
    exact (List.dropWhile_sublist isPySpace).subset hc2
  refine ⟨fun c hc hw => h1 c (hmem c hc) hw, ?_⟩
  have hR : ∀ (x : List Char), x.Chain' (fun a b => ¬ (isPySpace a = true ∧ isPySpace b = true)) →
      x.reverse.Chain' (fun a b => ¬ (isPySpace a = true ∧ isPySpace b = true)) := by
    intro x hx
    rw [List.chain'_reverse]
    refine hx.imp ?_
    intro a b hab
    rintro ⟨ha, hb⟩
    exact hab ⟨hb, ha⟩
  rw [stripChars]
  exact hR _ ((hR _ (h2.suffix (List.dropWhile_suffix _))).suffix (List.dropWhile_suffix _))

/-- The invariant of a `clean_string` output. -/
def cleanFixed (l : List Char) : Prop := WSok l ∧ strippedOK l

theorem cleanFixed_cleanChars (l : List Char) : cleanFixed (cleanChars l) :=
  ⟨WSok_stripChars _ (WSok_collapseWS l), strippedOK_stripChars _⟩

theorem cleanChars_eq_self (l : List Char) (h : cleanFixed l) : cleanChars l = l := by
  rw [cleanChars, collapseWS_eq_self l h.1, stripChars_eq_self l h.2]

theorem cleanChars_idem (l : List Char) : cleanChars (cleanChars l) = cleanChars l :=
  cleanChars_eq_self _ (cleanFixed_cleanChars l)

theorem clean_string_idem (v : Value) :
    clean_string (vStr (clean_string v)) = clean_string v := by
  rcases hx : clean_string v with ⟨xl⟩
  by_cases he : String.mk xl = ""
  · rw [he]
    rfl
  · have hstr : clean_string (vStr (String.mk xl)) =
        String.mk (cleanChars xl) := by
      simp only [clean_string, pyTruthy, pyStr]
      rw [if_pos (by simpa using he)]
    rw [hstr]
    have : xl = cleanChars (pyStr v).data := by
      have := hx
      simp only [clean_string] at this
      split at this
      · exact (congrArg String.data this).symm
      · exact absurd this.symm (by
          intro hh
          exact he (hh ▸ rfl))
    rw [this, cleanChars_idem]

/-! ### `str.title()` lemmas -/

theorem isAsciiAlpha_not_space (c : Char) (h : isAsciiAlpha c = true) :
    isPySpace c = false := by
  simp only [isAsciiAlpha, decide_eq_true_eq] at h
  simp only [isPySpace, decide_eq_false_iff_not]
  omega

theorem titleChars_map_isPySpace : ∀ (b : Bool) (l : List Char),
    (titleChars b l).map isPySpace = l.map isPySpace := by
  intro b l
  induction l generalizing b with
  | nil => rfl
  | cons c t ih =>
    simp only [titleChars, List.map_cons, ih]
    congr 1
    by_cases ha : isAsciiAlpha c
    · by_cases hb : b <;>
        simp [ha, hb, isPySpace_lowerChar, isPySpace_upperChar]
    · simp [ha]

theorem titleChars_idem : ∀ (b : Bool) (l : List Char),
    titleChars b (titleChars b l) = titleChars b l := by
  intro b l
  induction l generalizing b with
  | nil => rfl
  | cons c t ih =>
    by_cases ha : isAsciiAlpha c = true
    · by_cases hb : b = true
      · subst hb
        simp only [titleChars, ha, if_true, isAsciiAlpha_lowerChar, lowerChar_idem]
        rw [ih true]
      · have hb2 : b = false := by revert hb; cases b <;> simp
        subst hb2
        simp only [titleChars, ha, if_true, Bool.false_eq_true, if_false,
          isAsciiAlpha_upperChar, upperChar_idem]
        rw [ih true]
    · have ha2 : isAsciiAlpha c = false := by simpa using ha
      simp only [titleChars, ha2, Bool.false_eq_true, if_false]
      rw [ih]

theorem WSok_titleChars (b : Bool) (l : List Char) (h : WSok l) :
    WSok (titleChars b l) := by
  obtain ⟨h1, h2⟩ := h
  constructor
  · intro c hc hw
    induction l generalizing b with
    | nil => cases hc
    | cons d t ih =>
      simp only [titleChars, List.mem_cons] at hc
      rcases hc with rfl | hc2
      · by_cases ha : isAsciiAlpha d = true
        · exfalso
          by_cases hb : b = true
          · subst hb
            simp only [ha, if_true] at hw
            rw [isPySpace_lowerChar, isAsciiAlpha_not_space d ha] at hw
            cases hw
          · have hb2 : b = false := by revert hb; cases b <;> simp
            subst hb2
            simp only [ha, if_true, Bool.false_eq_true, if_false] at hw
            rw [isPySpace_upperChar, isAsciiAlpha_not_space d ha] at hw
            cases hw
        · have ha2 : isAsciiAlpha d = false := by simpa using ha
          simp only [ha2, Bool.false_eq_true, if_false] at hw ⊢
          exact h1 d (by simp) hw
      · exact ih (isAsciiAlpha d)
          (fun e he hq => h1 e (List.mem_cons_of_mem _ he) hq)
          (List.chain'_cons'.mp h2).2 hc2
  · have hmap := titleChars_map_isPySpace b l
    have hiff : ∀ (x : List Char), x.Chain' (fun a c => ¬ (isPySpace a = true ∧ isPySpace c = true)) ↔
        (x.map isPySpace).Chain' (fun a c => ¬ (a = true ∧ c = true)) := by
      intro x
      rw [List.chain'_map]
    rw [hiff, hmap, ← hiff]
    exact h2

theorem strippedOK_titleChars (b : Bool) (l : List Char) (h : strippedOK l) :
    strippedOK (titleChars b l) := by
  obtain ⟨h1, h2⟩ := h
  have hmap := titleChars_map_isPySpace b l
  constructor
  · intro c hc
    have hh : ((titleChars b l).map isPySpace).head? = ((l.map isPySpace)).head? := by
      rw [hmap]
    rw [List.head?_map, List.head?_map] at hh
    rcases hl : (titleChars b l).head? with _ | d
    · rw [hl] at hc; cases hc
    · rw [hl] at hc
      simp only [Option.mem_def, Option.some.injEq] at hc
      obtain rfl : d = c := hc
      rw [hl] at hh
      rcases hl2 : l.head? with _ | e
      · rw [hl2] at hh; cases hh
      · rw [hl2] at hh
        simp only [Option.map_some'] at hh
        have := h1 e (by rw [hl2]; rfl)
        rw [Option.some.inj hh, this]
  · intro c hc
    have hh : ((titleChars b l).map isPySpace).getLast? = ((l.map isPySpace)).getLast? := by
      rw [hmap]
    rw [List.getLast?_map, List.getLast?_map] at hh
    rcases hl : (titleChars b l).getLast? with _ | d
    · rw [hl] at hc; cases hc
    · rw [hl] at hc
      simp only [Option.mem_def, Option.some.injEq] at hc
      obtain rfl : d = c := hc
      rw [hl] at hh
      rcases hl2 : l.getLast? with _ | e
      · rw [hl2] at hh; cases hh
      · rw [hl2] at hh
        simp only [Option.map_some'] at hh
        have := h2 e (by rw [hl2]; rfl)
        rw [Option.some.inj hh, this]

theorem pyTitle_idem (s : String) : pyTitle (pyTitle s) = pyTitle s := by
  simp only [pyTitle]
  rw [titleChars_idem]

theorem String.mk_eq_empty_iff (l : List Char) : String.mk l = "" ↔ l = [] := by
  constructor
  · intro h
    have := congrArg String.data h
    simpa using this
  · intro h
    rw [h]

theorem titleChars_nil_iff (b : Bool) (l : List Char) :
    titleChars b l = [] ↔ l = [] := by
  cases l <;> simp [titleChars]

theorem cleanFixed_titleChars (b : Bool) (l : List Char) (h : cleanFixed l) :
    cleanFixed (titleChars b l) :=
  ⟨WSok_titleChars b l h.1, strippedOK_titleChars b l h.2⟩

theorem clean_string_eq_of_truthy (v : Value) (h : pyTruthy (some v) = true) :
    clean_string v = String.mk (cleanChars (pyStr v).data) := by
  simp only [clean_string, h, if_true]

theorem clean_string_of_cleanFixed (s : String) (hne : s ≠ "")
    (h : cleanFixed s.data) : clean_string (vStr s) = s := by
  have ht : pyTruthy (some (vStr s)) = true := by
    simp [pyTruthy, hne]
  rw [clean_string_eq_of_truthy _ ht]
  show String.mk (cleanChars s.data) = s
  rw [cleanChars_eq_self _ h]

theorem city_idem (v : Value) :
    pyTitle (clean_string (vStr (pyTitle (clean_string v)))) =
      pyTitle (clean_string v) := by
  by_cases hx : clean_string v = ""
  · rw [hx]
    rfl
  · have hv : pyTruthy (some v) = true := by
      by_contra hv
      simp only [Bool.not_eq_true] at hv
      exact hx (by simp [clean_string, hv])
    have hxd : (clean_string v).data = cleanChars (pyStr v).data := by
      rw [clean_string_eq_of_truthy v hv]
    have hcf : cleanFixed (clean_string v).data := by
      rw [hxd]
      exact cleanFixed_cleanChars _
    have hyd : (pyTitle (clean_string v)).data =
        titleChars false (clean_string v).data := rfl
    have hyne : pyTitle (clean_string v) ≠ "" := by
      intro hh
      have h2 := congrArg String.data hh
      rw [hyd] at h2
      have h3 : titleChars false (clean_string v).data = [] :=
        h2.trans (show ("" : String).data = [] from rfl)
      rw [titleChars_nil_iff] at h3
      exact hx (String.ext h3)
    have hycf : cleanFixed (pyTitle (clean_string v)).data := by
      rw [hyd]
      exact cleanFixed_titleChars _ _ hcf
    rw [clean_string_of_cleanFixed _ hyne hycf, pyTitle_idem]

theorem normalize_country_idem (c : String) :
    normalize_country (normalize_country c) = normalize_country c := by
  by_cases hc : c = ""
  · simp [normalize_country, hc]
  · simp only [normalize_country, hc, if_false]
    by_cases h1 : pyStrip (pyLower c) = "canada" ∨ pyStrip (pyLower c) = "ca" ∨
        pyStrip (pyLower c) = "can" ∨ pyStrip (pyLower c) = "🇨🇦"
    · rw [if_pos h1]
      decide
    · rw [if_neg h1]
      by_cases h2 : pyStrip (pyLower c) = "australia" ∨ pyStrip (pyLower c) = "au" ∨
          pyStrip (pyLower c) = "aus" ∨ pyStrip (pyLower c) = "🇦🇺"
      · rw [if_pos h2]
        decide
      · rw [if_neg h2]
        simp [normalize_country, hc, h1, h2]

theorem lookup_mem_values (l : List (String × String)) (c v : String)
    (h : l.lookup c = some v) : ∃ k, (k, v) ∈ l := by
  induction l with
  | nil => cases h
  | cons p t ih =>
    obtain ⟨k, b⟩ := p
    simp only [List.lookup] at h
    rcases hbe : c == k with _ | _ <;> rw [hbe] at h
    · obtain ⟨k2, hk2⟩ := ih h
      exact ⟨k2, List.mem_cons_of_mem _ hk2⟩
    · obtain rfl : b = v := by simpa using h
      exact ⟨k, List.mem_cons_self _ _⟩

theorem pyTitle_ne_empty (s : String) (h : s ≠ "") : pyTitle s ≠ "" := by
  intro hh
  have h2 := congrArg String.data hh
  have h3 : titleChars false s.data = [] :=
    h2.trans (show ("" : String).data = [] from rfl)
  rw [titleChars_nil_iff] at h3
  exact h (String.ext h3)

theorem normalize_province_form (p c : String) (hp : p ≠ "") :
    (∃ k v, ((k, v) ∈ CANADA_PROVINCES ∨ (k, v) ∈ AUSTRALIA_STATES) ∧
      normalize_province p c = v) ∨
    normalize_province p c = pyTitle p := by
  simp only [normalize_province, hp, if_false]
  split_ifs with h1 h2
  · rcases hl : CANADA_PROVINCES.lookup (pyStrip (pyLower p)) with _ | v
    · exact Or.inr rfl
    · obtain ⟨k, hk⟩ := lookup_mem_values _ _ _ hl
      exact Or.inl ⟨k, v, Or.inl hk, rfl⟩
  · rcases hl : AUSTRALIA_STATES.lookup (pyStrip (pyLower p)) with _ | v
    · exact Or.inr rfl
    · obtain ⟨k, hk⟩ := lookup_mem_values _ _ _ hl
      exact Or.inl ⟨k, v, Or.inr hk, rfl⟩
  · exact Or.inr rfl

theorem normalize_province_ne_empty (p c : String) (hp : p ≠ "") :
    normalize_province p c ≠ "" := by
  rcases normalize_province_form p c hp with ⟨k, v, hkv, hv⟩ | hv
  · rw [hv]
    rcases hkv with hk | hk
    · have : ∀ q ∈ CANADA_PROVINCES, q.2 ≠ "" := by decide
      exact this (k, v) hk
    · have : ∀ q ∈ AUSTRALIA_STATES, q.2 ≠ "" := by decide
      exact this (k, v) hk
  · rw [hv]
    exact pyTitle_ne_empty p hp

theorem normalize_province_idem (p c : String)
    (hnl : normalize_province p c ≠ "Newfoundland and Labrador") :
    normalize_province (normalize_province p c) (normalize_country c) =
      normalize_province p c := by
  by_cases hp : p = ""
  · subst hp
    rfl
  · have hp1ne := normalize_province_ne_empty p c hp
    have hsecond : ∀ q : String, q ≠ "" →
        normalize_province q (normalize_country c) = pyTitle q := by
      intro q hq
      by_cases hc : c = ""
      · rw [show normalize_country c = "" by simp [normalize_country, hc]]
        simp only [normalize_province, hq, if_false]
        rw [if_neg (by decide), if_neg (by decide)]
      · by_cases h1 : pyStrip (pyLower c) = "canada" ∨ pyStrip (pyLower c) = "ca" ∨
            pyStrip (pyLower c) = "can" ∨ pyStrip (pyLower c) = "🇨🇦"
        · rw [show normalize_country c = "🇨🇦 Canada" by
            simp only [normalize_country, hc, if_false]
            rw [if_pos h1]]
          simp only [normalize_province, hq, if_false]
          rw [if_neg (by decide), if_neg (by decide)]
        · by_cases h2 : pyStrip (pyLower c) = "australia" ∨ pyStrip (pyLower c) = "au" ∨
              pyStrip (pyLower c) = "aus" ∨ pyStrip (pyLower c) = "🇦🇺"
          · rw [show normalize_country c = "🇦🇺 Australia" by
              simp only [normalize_country, hc, if_false]
              rw [if_neg h1, if_pos h2]]
            simp only [normalize_province, hq, if_false]
            rw [if_neg (by decide), if_neg (by decide)]
          · rw [show normalize_country c = c by
              simp only [normalize_country, hc, if_false]
              rw [if_neg h1, if_neg h2]]
            simp only [normalize_province, hq, if_false]
            rw [if_neg ?hca, if_neg ?hau]
            case hca =>
              rintro (hl | hl | hl)
              · exact h1 (Or.inl (by rw [hl]; decide))
              · exact h1 (Or.inr (Or.inl (by rw [hl]; decide)))
              · exact h1 (Or.inr (Or.inr (Or.inr (by rw [hl]; decide))))
            case hau =>
              rintro (hl | hl | hl)
              · exact h2 (Or.inl (by rw [hl]; decide))
              · exact h2 (Or.inr (Or.inl (by rw [hl]; decide)))
              · exact h2 (Or.inr (Or.inr (Or.inr (by rw [hl]; decide))))
    rw [hsecond _ hp1ne]
    rcases normalize_province_form p c hp with ⟨k, v, hkv, hv⟩ | hv
    · rw [hv]
      rw [hv] at hnl
      rcases hkv with hk | hk
      · have : ∀ q ∈ CANADA_PROVINCES,
            q.2 = "Newfoundland and Labrador" ∨ pyTitle q.2 = q.2 := by decide
        rcases this (k, v) hk with hq | hq
        · exact absurd hq hnl
        · exact hq
      · have : ∀ q ∈ AUSTRALIA_STATES, pyTitle q.2 = q.2 := by decide
        exact this (k, v) hk
    · rw [hv, pyTitle_idem]

/-! ### `clean_phone` and `clean_email` second-pass behaviour -/

theorem filter_take_of_all (p : Char → Bool) (l : List Char) (n : Nat)
    (h : ∀ c ∈ l, p c = true) : (l.take n).filter p = l.take n :=
  List.filter_eq_self.mpr fun c hc => h c (List.take_subset n l hc)

theorem filter_drop_of_all (p : Char → Bool) (l : List Char) (n : Nat)
    (h : ∀ c ∈ l, p c = true) : (l.drop n).filter p = l.drop n :=
  List.filter_eq_self.mpr fun c hc => h c (List.drop_subset n l hc)

theorem take_drop_recompose (cl : List Char) :
    cl.take 3 ++ ((cl.drop 3).take 3 ++ cl.drop 6) = cl := by
  have h2 := List.take_append_drop 3 (cl.drop 3)
  rw [List.drop_drop, show (3 : Nat) + 3 = 6 from rfl] at h2
  rw [h2, List.take_append_drop]

theorem filter_formatPhone (cl : List Char)
    (hall : ∀ c ∈ cl, phoneChar c = true)
    (h : ¬ (cl.length = 11 ∧ cl.head? = some '1')) :
    (formatPhone cl).data.filter phoneChar = cl := by
  unfold formatPhone
  split_ifs with h10
  · show ('(' :: cl.take 3 ++ ')' :: ' ' :: ((cl.drop 3).take 3 ++
      '-' :: cl.drop 6)).filter phoneChar = cl
    simp only [List.filter_cons, List.filter_append,
      show phoneChar '(' = false from rfl, show phoneChar ')' = false from rfl,
      show phoneChar ' ' = false from rfl, show phoneChar '-' = false from rfl,
      Bool.false_eq_true, if_false,
      filter_take_of_all phoneChar cl 3 hall,
      filter_drop_of_all phoneChar cl 6 hall,
      filter_take_of_all phoneChar (cl.drop 3) 3
        (fun c hc => hall c (List.drop_subset 3 cl hc))]
    exact take_drop_recompose cl
  · show cl.filter phoneChar = cl
    exact List.filter_eq_self.mpr hall

theorem formatPhone_ne_empty (cl : List Char) (hne : cl ≠ []) :
    formatPhone cl ≠ "" := by
  unfold formatPhone
  split_ifs with h10 h11
  · simp [String.mk_eq_empty_iff]
  · simp [String.mk_eq_empty_iff]
  · simpa [String.mk_eq_empty_iff] using hne

theorem clean_phone_idem (v : Value)
    (h : ¬ (((pyStr v).data.filter phoneChar).length = 11 ∧
      ((pyStr v).data.filter phoneChar).head? = some '1')) :
    clean_phone (vStr (clean_phone v)) = clean_phone v := by
  by_cases hv : pyTruthy (some v) = true
  · have hcp : clean_phone v = formatPhone ((pyStr v).data.filter phoneChar) := by
      simp only [clean_phone, hv, Bool.true_eq_false, if_false]
    set cl := (pyStr v).data.filter phoneChar with hcl
    have hall : ∀ c ∈ cl, phoneChar c = true := fun c hc => List.of_mem_filter hc
    by_cases hnil : cl = []
    · rw [hcp, hnil]
      rfl
    · have hne := formatPhone_ne_empty cl hnil
      have htr : pyTruthy (some (vStr (formatPhone cl))) = true := by
        simp [pyTruthy, hne]
      rw [hcp]
      show clean_phone (vStr (formatPhone cl)) = formatPhone cl
      simp only [clean_phone, htr, Bool.true_eq_false, if_false, pyStr]
      rw [filter_formatPhone cl hall h]
  · have h0 : clean_phone v = "" := by
      simp only [clean_phone]
      rw [if_pos (by simpa using hv)]
    rw [h0]
    rfl

theorem stripChars_map_lowerChar (l : List Char) :
    stripChars (l.map lowerChar) = (stripChars l).map lowerChar := by
  have hdw : ∀ (x : List Char), (x.map lowerChar).dropWhile isPySpace =
      (x.dropWhile isPySpace).map lowerChar := by
    intro x
    rw [List.dropWhile_map]
    have hfun : (isPySpace ∘ lowerChar) = isPySpace := funext isPySpace_lowerChar
    rw [hfun]
  simp only [stripChars]
  rw [hdw, ← List.map_reverse, hdw, ← List.map_reverse]

theorem map_lowerChar_idem (l : List Char) :
    (l.map lowerChar).map lowerChar = l.map lowerChar := by
  rw [List.map_map]
  have hfun : (lowerChar ∘ lowerChar) = lowerChar := funext lowerChar_idem
  rw [hfun]

theorem clean_email_idem (v : Value) :
    clean_email (vStr (clean_email v)) = clean_email v := by
  by_cases hv : pyTruthy (some v) = true
  · have hce : clean_email v =
        (if emailMatch (pyLower (pyStrip (pyStr v))).data = true
          then pyLower (pyStrip (pyStr v)) else "") := by
      simp only [clean_email, hv, Bool.true_eq_false, if_false]
    by_cases hm : emailMatch (pyLower (pyStrip (pyStr v))).data = true
    · rw [hce, if_pos hm]
      set e := pyLower (pyStrip (pyStr v)) with he
      have hene : e ≠ "" := by
        intro hh
        rw [hh] at hm
        exact absurd hm (by decide)
      have htr : pyTruthy (some (vStr e)) = true := by simp [pyTruthy, hene]
      have hfix : pyLower (pyStrip e) = e := by
        apply String.ext
        show (stripChars e.data).map lowerChar = e.data
        have hed : e.data = (stripChars (pyStr v).data).map lowerChar := rfl
        rw [hed, stripChars_map_lowerChar, stripChars_idem, map_lowerChar_idem]
      show clean_email (vStr e) = e
      simp only [clean_email, htr, Bool.true_eq_false, if_false, pyStr]
      rw [hfix, if_pos hm]
    · rw [hce, if_neg hm]
      rfl
  · have h0 : clean_email v = "" := by
      simp only [clean_email]
      rw [if_pos (by simpa using hv)]
    rw [h0]
    rfl

/-! ### `%Y-%m-%d` output re-parses to the same date -/

theorem digitChar_spec (x : Nat) (h : x < 10) :
    isAsciiDigit (Nat.digitChar x) = true ∧ digitVal (Nat.digitChar x) = x := by
  interval_cases x <;> exact ⟨rfl, rfl⟩

theorem takeDigits_pad4 (y : Nat) (r : List Char) (hy : y ≤ 9999) :
    takeDigits 4 (pad4 y ++ r) = some (y, r) := by
  have d1 := digitChar_spec (y / 1000 % 10) (Nat.mod_lt _ (by omega))
  have d2 := digitChar_spec (y / 100 % 10) (Nat.mod_lt _ (by omega))
  have d3 := digitChar_spec (y / 10 % 10) (Nat.mod_lt _ (by omega))
  have d4 := digitChar_spec (y % 10) (Nat.mod_lt _ (by omega))
  simp only [pad4, takeDigits, List.cons_append, List.nil_append, takeDigitsAux,
    d1.1, d2.1, d3.1, d4.1, if_true, d1.2, d2.2, d3.2, d4.2]
  refine congrArg some (Prod.ext ?_ rfl)
  show ((((0 * 10 + y / 1000 % 10) * 10 + y / 100 % 10) * 10 + y / 10 % 10) * 10 +
    y % 10) = y
  omega

theorem monthDayParse (y m d : Nat) (h1 : 1 ≤ m) (h2 : m ≤ 12) (h3 : 1 ≤ d)
    (h4 : d ≤ 31) :
    (candMonth (pad2 m ++ '-' :: pad2 d)).findSome? (fun p =>
      (litChar '-' p.2).bind fun r4 =>
        (candDay r4).findSome? fun q => some ((y, p.1, q.1), q.2)) =
    some ((y, m, d), []) := by
  interval_cases m <;> interval_cases d <;> rfl

theorem matchYMD_iso (y m d : Nat) (hy : y ≤ 9999) (h1 : 1 ≤ m) (h2 : m ≤ 12)
    (h3 : 1 ≤ d) (h4 : d ≤ 31) :
    matchYMD '-' (isoOfDate (y, m, d)).data = some ((y, m, d), []) := by
  have hdata : (isoOfDate (y, m, d)).data =
      pad4 y ++ '-' :: (pad2 m ++ '-' :: pad2 d) := rfl
  rw [matchYMD, hdata, takeDigits_pad4 y _ hy]
  show (litChar '-' ('-' :: (pad2 m ++ '-' :: pad2 d))).bind (fun r2 =>
      (candMonth r2).findSome? (fun p =>
        (litChar '-' p.2).bind fun r4 =>
          (candDay r4).findSome? fun q => some ((y, p.1, q.1), q.2))) =
    some ((y, m, d), [])
  rw [show litChar '-' ('-' :: (pad2 m ++ '-' :: pad2 d)) =
    some (pad2 m ++ '-' :: pad2 d) from rfl]
  rw [Option.some_bind]
  exact monthDayParse y m d h1 h2 h3 h4
/-! ### Parsed years fit in four digits -/

theorem digitVal_le (c : Char) (h : isAsciiDigit c = true) : digitVal c ≤ 9 := by
  rw [isAsciiDigit, decide_eq_true_iff] at h
  rw [digitVal]
  omega

theorem takeDigitsAux_lt (n : Nat) :
    ∀ (acc : Nat) (cs : List Char) (y : Nat) (r : List Char),
    takeDigitsAux n acc cs = some (y, r) → y < (acc + 1) * 10 ^ n := by
  induction n with
  | zero =>
    intro acc cs y r h
    rw [takeDigitsAux] at h
    injection h with h'
    injection h' with h1 h2
    subst h1
    simp
  | succ n ih =>
    intro acc cs y r h
    cases cs with
    | nil => rw [takeDigitsAux] at h; cases h
    | cons c cs' =>
      rw [takeDigitsAux] at h
      by_cases hc : isAsciiDigit c
      · rw [if_pos hc] at h
        have hlt := ih (acc * 10 + digitVal c) cs' y r h
        have h9 := digitVal_le c hc
        calc y < (acc * 10 + digitVal c + 1) * 10 ^ n := hlt
          _ ≤ ((acc + 1) * 10) * 10 ^ n :=
            Nat.mul_le_mul_right _ (by omega)
          _ = (acc + 1) * 10 ^ (n + 1) := by ring
      · rw [if_neg hc] at h
        cases h

theorem takeDigits4_le (cs : List Char) (y : Nat) (r : List Char)
    (h : takeDigits 4 cs = some (y, r)) : y ≤ 9999 := by
  have := takeDigitsAux_lt 4 0 cs y r h
  omega

/-! ### Propagating a property through `bind` / `findSome?` chains -/

theorem bind_prop {α β : Type} (o : Option α) (f : α → Option β) (P : β → Prop)
    (hf : ∀ x, o = some x → ∀ b, f x = some b → P b) (b : β)
    (h : o.bind f = some b) : P b := by
  cases ho : o with
  | none => rw [ho] at h; cases h
  | some a =>
    rw [ho, Option.some_bind] at h
    exact hf a ho b h

theorem findSome?_prop {α β : Type} (f : α → Option β) (l : List α)
    (P : β → Prop) (hf : ∀ x ∈ l, ∀ b, f x = some b → P b) (b : β)
    (h : l.findSome? f = some b) : P b := by
  induction l with
  | nil => simp at h
  | cons a t ih =>
    rw [List.findSome?_cons] at h
    cases hfa : f a with
    | some c =>
      rw [hfa] at h
      exact hf a (by simp) b (hfa.trans h)
    | none =>
      rw [hfa] at h
      exact ih (fun x hx => hf x (by simp [hx])) h

theorem matchYMD_year (sep : Char) (cs : List Char) (y m d : Nat)
    (r : List Char) (h : matchYMD sep cs = some ((y, m, d), r)) : y ≤ 9999 := by
  rw [matchYMD] at h
  refine bind_prop _ _ (fun b => b.1.1 ≤ 9999) ?_ _ h
  rintro ⟨y1, r1⟩ hx b hb
  have hy1 : y1 ≤ 9999 := takeDigits4_le cs y1 r1 hx
  refine bind_prop _ _ (fun b => b.1.1 ≤ 9999) (fun r2 _ b2 hb2 => ?_) _ hb
  refine findSome?_prop _ _ (fun b => b.1.1 ≤ 9999) (fun p _ b3 hb3 => ?_) _ hb2
  obtain ⟨m1, r3⟩ := p
  refine bind_prop _ _ (fun b => b.1.1 ≤ 9999) (fun r4 _ b4 hb4 => ?_) _ hb3
  refine findSome?_prop _ _ (fun b => b.1.1 ≤ 9999) (fun q _ b5 hb5 => ?_) _ hb4
  obtain ⟨d1, r5⟩ := q
  injection hb5 with h5
  subst h5
  exact hy1

theorem matchDMY_year (cs : List Char) (y m d : Nat) (r : List Char)
    (h : matchDMY cs = some ((y, m, d), r)) : y ≤ 9999 := by
  rw [matchDMY] at h
  refine findSome?_prop _ _ (fun b => b.1.1 ≤ 9999) ?_ _ h
  rintro ⟨d1, r1⟩ hx b hb
  refine bind_prop _ _ (fun b => b.1.1 ≤ 9999) (fun r2 _ b2 hb2 => ?_) _ hb
  refine findSome?_prop _ _ (fun b => b.1.1 ≤ 9999) (fun p _ b3 hb3 => ?_) _ hb2
  obtain ⟨m1, r3⟩ := p
  refine bind_prop _ _ (fun b => b.1.1 ≤ 9999) (fun r4 _ b4 hb4 => ?_) _ hb3
  refine bind_prop _ _ (fun b => b.1.1 ≤ 9999) (fun q hq b5 hb5 => ?_) _ hb4
  obtain ⟨y1, r5⟩ := q
  have hy1 : y1 ≤ 9999 := takeDigits4_le r4 y1 r5 hq
  injection hb5 with h5
  subst h5
  exact hy1

theorem matchMDY_year (cs : List Char) (y m d : Nat) (r : List Char)
    (h : matchMDY cs = some ((y, m, d), r)) : y ≤ 9999 := by
  rw [matchMDY] at h
  refine findSome?_prop _ _ (fun b => b.1.1 ≤ 9999) ?_ _ h
  rintro ⟨m1, r1⟩ hx b hb
  refine bind_prop _ _ (fun b => b.1.1 ≤ 9999) (fun r2 _ b2 hb2 => ?_) _ hb
  refine findSome?_prop _ _ (fun b => b.1.1 ≤ 9999) (fun p _ b3 hb3 => ?_) _ hb2
  obtain ⟨d1, r3⟩ := p
  refine bind_prop _ _ (fun b => b.1.1 ≤ 9999) (fun r4 _ b4 hb4 => ?_) _ hb3
  refine bind_prop _ _ (fun b => b.1.1 ≤ 9999) (fun q hq b5 hb5 => ?_) _ hb4
  obtain ⟨y1, r5⟩ := q
  have hy1 : y1 ≤ 9999 := takeDigits4_le r4 y1 r5 hq
  injection hb5 with h5
  subst h5
  exact hy1

theorem matchYMDHMS_year (cs : List Char) (y m d : Nat) (r : List Char)
    (h : matchYMDHMS cs = some ((y, m, d), r)) : y ≤ 9999 := by
  rw [matchYMDHMS] at h
  refine bind_prop _ _ (fun b => b.1.1 ≤ 9999) ?_ _ h
  rintro ⟨y1, r1⟩ hx b hb
  have hy1 : y1 ≤ 9999 := takeDigits4_le cs y1 r1 hx
  refine bind_prop _ _ (fun b => b.1.1 ≤ 9999) (fun r2 _ b2 hb2 => ?_) _ hb
  refine findSome?_prop _ _ (fun b => b.1.1 ≤ 9999) (fun p _ b3 hb3 => ?_) _ hb2
  obtain ⟨m1, r3⟩ := p
  refine bind_prop _ _ (fun b => b.1.1 ≤ 9999) (fun r4 _ b4 hb4 => ?_) _ hb3
  refine findSome?_prop _ _ (fun b => b.1.1 ≤ 9999) (fun q _ b5 hb5 => ?_) _ hb4
  obtain ⟨d1, r5⟩ := q
  refine bind_prop _ _ (fun b => b.1.1 ≤ 9999) (fun r6 _ b6 hb6 => ?_) _ hb5
  refine findSome?_prop _ _ (fun b => b.1.1 ≤ 9999) (fun w _ b7 hb7 => ?_) _ hb6
  obtain ⟨h1, r7⟩ := w
  refine bind_prop _ _ (fun b => b.1.1 ≤ 9999) (fun r8 _ b8 hb8 => ?_) _ hb7
  refine findSome?_prop _ _ (fun b => b.1.1 ≤ 9999) (fun w2 _ b9 hb9 => ?_) _ hb8
  obtain ⟨mi, r9⟩ := w2
  refine bind_prop _ _ (fun b => b.1.1 ≤ 9999) (fun r10 _ b10 hb10 => ?_) _ hb9
  refine findSome?_prop _ _ (fun b => b.1.1 ≤ 9999) (fun w3 _ b11 hb11 => ?_) _ hb10
  obtain ⟨se, r11⟩ := w3
  injection hb11 with h11
  subst h11
  exact hy1

theorem matchYMDcompact_year (cs : List Char) (y m d : Nat) (r : List Char)
    (h : matchYMDcompact cs = some ((y, m, d), r)) : y ≤ 9999 := by
  rw [matchYMDcompact] at h
  refine bind_prop _ _ (fun b => b.1.1 ≤ 9999) ?_ _ h
  rintro ⟨y1, r1⟩ hx b hb
  have hy1 : y1 ≤ 9999 := takeDigits4_le cs y1 r1 hx
  refine findSome?_prop _ _ (fun b => b.1.1 ≤ 9999) (fun p _ b2 hb2 => ?_) _ hb
  obtain ⟨m1, r2⟩ := p
  refine findSome?_prop _ _ (fun b => b.1.1 ≤ 9999) (fun q _ b3 hb3 => ?_) _ hb2
  obtain ⟨d1, r3⟩ := q
  injection hb3 with h3
  subst h3
  exact hy1

/-! ### `runFmt` / `tryInputFormats` soundness -/

theorem runFmt_sound (M : List Char → Option ((Nat × Nat × Nat) × List Char))
    (cs : List Char) (t : Nat × Nat × Nat) (h : runFmt M cs = some t) :
    M cs = some (t, []) ∧ validDate t = true := by
  rw [runFmt] at h
  split at h
  · next t' heq =>
    split at h
    · next hv =>
      injection h with h'
      subst h'
      exact ⟨heq, hv⟩
    · cases h
  · cases h

theorem orElse_cases {α : Type} (o o' : Option α) (t : α)
    (h : (o <|> o') = some t) : o = some t ∨ o' = some t := by
  cases o with
  | none => right; simpa using h
  | some a => left; simpa using h

theorem tryInputFormats_sound (cs : List Char) (y m d : Nat)
    (h : tryInputFormats cs = some (y, m, d)) :
    y ≤ 9999 ∧ validDate (y, m, d) = true := by
  rw [tryInputFormats] at h
  rcases orElse_cases _ _ _ h with h1 | h'
  · obtain ⟨hM, hv⟩ := runFmt_sound _ _ _ h1
    exact ⟨matchYMD_year '-' cs y m d [] hM, hv⟩
  rcases orElse_cases _ _ _ h' with h2 | h''
  · obtain ⟨hM, hv⟩ := runFmt_sound _ _ _ h2
    exact ⟨matchYMD_year '/' cs y m d [] hM, hv⟩
  rcases orElse_cases _ _ _ h'' with h3 | h3'
  · obtain ⟨hM, hv⟩ := runFmt_sound _ _ _ h3
    exact ⟨matchDMY_year cs y m d [] hM, hv⟩
  rcases orElse_cases _ _ _ h3' with h4 | h4'
  · obtain ⟨hM, hv⟩ := runFmt_sound _ _ _ h4
    exact ⟨matchMDY_year cs y m d [] hM, hv⟩
  rcases orElse_cases _ _ _ h4' with h5 | h6
  · obtain ⟨hM, hv⟩ := runFmt_sound _ _ _ h5
    exact ⟨matchYMDHMS_year cs y m d [] hM, hv⟩
  · obtain ⟨hM, hv⟩ := runFmt_sound _ _ _ h6
    exact ⟨matchYMDcompact_year cs y m d [] hM, hv⟩

theorem daysInMonth_le (y m : Nat) : daysInMonth y m ≤ 31 := by
  rw [daysInMonth]
  repeat' split
  all_goals omega

/-! ### The ISO output is strip-stable and re-parses to the same date -/

theorem isPySpace_digitChar (x : Nat) (h : x < 10) :
    isPySpace (Nat.digitChar x) = false := by
  interval_cases x <;> rfl

theorem pyStrip_isoOfDate (y m d : Nat) :
    pyStrip (isoOfDate (y, m, d)) = isoOfDate (y, m, d) := by
  rw [isoOfDate, pyStrip]
  refine congrArg String.mk (stripChars_of_noWS _ ?_)
  intro c hc
  simp only [pad4, pad2, List.mem_append, List.mem_cons, List.not_mem_nil,
    or_false] at hc
  rcases hc with ((rfl | rfl | rfl | rfl) | rfl | (rfl | rfl) | rfl | (rfl | rfl))
  · exact isPySpace_digitChar _ (Nat.mod_lt _ (by omega))
  · exact isPySpace_digitChar _ (Nat.mod_lt _ (by omega))
  · exact isPySpace_digitChar _ (Nat.mod_lt _ (by omega))
  · exact isPySpace_digitChar _ (Nat.mod_lt _ (by omega))
  · rfl
  · exact isPySpace_digitChar _ (Nat.mod_lt _ (by omega))
  · exact isPySpace_digitChar _ (Nat.mod_lt _ (by omega))
  · rfl
  · exact isPySpace_digitChar _ (Nat.mod_lt _ (by omega))
  · exact isPySpace_digitChar _ (Nat.mod_lt _ (by omega))

theorem tryInputFormats_iso (y m d : Nat) (hy : y ≤ 9999)
    (hv : validDate (y, m, d) = true) :
    tryInputFormats (isoOfDate (y, m, d)).data = some (y, m, d) := by
  rw [validDate, decide_eq_true_iff] at hv
  obtain ⟨_, hm1, hm2, hd1, hd2⟩ := hv
  have hd31 : d ≤ 31 := le_trans hd2 (daysInMonth_le y m)
  have h1 : runFmt (matchYMD '-') (isoOfDate (y, m, d)).data =
      some (y, m, d) := by
    rw [runFmt, matchYMD_iso y m d hy hm1 hm2 hd1 hd31]
    have hvb : validDate (y, m, d) = true := by
      rw [validDate, decide_eq_true_iff]
      exact ⟨by omega, hm1, hm2, hd1, hd2⟩
    simp [hvb]
  rw [tryInputFormats, h1]
  rfl

/-! ### `format_date` is idempotent away from integer inputs -/

theorem format_date_idem (v : Value) (h : ∀ n : Int, v ≠ vInt n) :
    format_date (vStr (format_date v)) = format_date v := by
  cases v with
  | vNone => decide
  | vInt n => exact absurd rfl (h n)
  | vStr s =>
    rcases ht : tryInputFormats (pyStrip s).data with _ | t
    · have hs : format_date (vStr s) = s := by
        rw [format_date]
        simp [ht]
      rw [hs]
      exact hs
    · obtain ⟨y, m, d⟩ := t
      obtain ⟨hy, hv⟩ := tryInputFormats_sound _ y m d ht
      have hfd : format_date (vStr s) = isoOfDate (y, m, d) := by
        rw [format_date]
        simp [ht]
      have h2 : tryInputFormats (pyStrip (isoOfDate (y, m, d))).data =
          some (y, m, d) := by
        rw [pyStrip_isoOfDate]
        exact tryInputFormats_iso y m d hy hv
      rw [hfd, format_date]
      simp [h2, hfd]

theorem format_date_ne_empty (s : String) (hs : s ≠ "") :
    format_date (vStr s) ≠ "" := by
  rcases ht : tryInputFormats (pyStrip s).data with _ | t
  · have : format_date (vStr s) = s := by rw [format_date]; simp [ht]
    rw [this]
    exact hs
  · obtain ⟨y, m, d⟩ := t
    have : format_date (vStr s) = isoOfDate (y, m, d) := by
      rw [format_date]
      simp [ht]
    rw [this, isoOfDate]
    intro he
    have := congrArg String.data he
    simp [pad4] at this
/-! ### Idempotence of `normalize_record`, key by key -/

/-- The stored value is a Python `int`. -/
def isIntVal : Option Value → Bool
  | some (vInt _) => true
  | _ => false

theorem pass_key_idem (today : String) (r : Record) (k : String) (d : Value)
    (h : ∀ rec : Record, normalize_record today rec k = some (rec.getD k d)) :
    normalize_record today (normalize_record today r) k =
      normalize_record today r k := by
  have hg : (normalize_record today r).getD k d = r.getD k d := by
    rw [Record.getD, h r]
  rw [h (normalize_record today r), hg, h r]

theorem clean_key_idem (today : String) (r : Record) (k : String)
    (h : ∀ rec : Record, normalize_record today rec k =
      some (vStr (clean_string (rec.getD k (vStr ""))))) :
    normalize_record today (normalize_record today r) k =
      normalize_record today r k := by
  have e : (normalize_record today r).getD k (vStr "") =
      vStr (clean_string (r.getD k (vStr ""))) := by
    rw [Record.getD, h r]
  rw [h (normalize_record today r), h r, e, clean_string_idem]

theorem opt_key_idem (today : String) (r : Record) (k : String)
    (h : ∀ rec : Record, normalize_record today rec k =
      (if (rec k).isSome = true then some (rec.getD k (vStr "")) else none)) :
    normalize_record today (normalize_record today r) k =
      normalize_record today r k := by
  cases hrk : r k with
  | none =>
    have e : normalize_record today r k = none := by rw [h r, hrk]; rfl
    rw [h (normalize_record today r), e]
    rfl
  | some v =>
    have hg : r.getD k (vStr "") = v := by rw [Record.getD, hrk]
    have e : normalize_record today r k = some v := by rw [h r, hrk, hg]; rfl
    have hg' : (normalize_record today r).getD k (vStr "") = v := by
      rw [Record.getD, e]
    rw [h (normalize_record today r), e, hg']
    rfl

theorem date_key_idem (today : String) (r : Record) (k : String)
    (h : ∀ rec : Record, normalize_record today rec k =
      (if (rec k).isSome = true then
        some (vStr (format_date (rec.getD k vNone))) else none))
    (hd : isIntVal (r k) = false) :
    normalize_record today (normalize_record today r) k =
      normalize_record today r k := by
  cases hrk : r k with
  | none =>
    have e : normalize_record today r k = none := by rw [h r, hrk]; rfl
    rw [h (normalize_record today r), e]
    rfl
  | some v =>
    have hg : r.getD k vNone = v := by rw [Record.getD, hrk]
    have e : normalize_record today r k = some (vStr (format_date v)) := by
      rw [h r, hrk, hg]
      rfl
    have hg' : (normalize_record today r).getD k vNone =
        vStr (format_date v) := by
      rw [Record.getD, e]
    have hv : ∀ n : Int, v ≠ vInt n := by
      intro n hn
      rw [hrk, hn] at hd
      simp [isIntVal] at hd
    rw [h (normalize_record today r), e, hg', format_date_idem v hv]
    rfl

theorem normalize_record_none (today : String) (rec : Record) (k : String)
    (h1 : ¬k = "name") (h2 : ¬k = "address") (h3 : ¬k = "city")
    (h4 : ¬k = "country") (h5 : ¬k = "province") (h6 : ¬k = "capacity")
    (h7 : ¬k = "phone") (h8 : ¬k = "email") (h9 : ¬k = "license_number")
    (h10 : ¬k = "license_status") (h11 : ¬k = "discovered_date")
    (h12 : ¬k = "source") (h13 : ¬k = "source_url") (h14 : ¬k = "ai_score")
    (h15 : ¬k = "priority") (h16 : ¬k = "ai_reasoning")
    (h17 : ¬k = "ai_recommendation") (h18 : ¬k = "notes") (h19 : ¬k = "type")
    (h20 : ¬(k = "price" ∨ k = "annual_revenue" ∨ k = "cash_flow" ∨
      k = "lease_remaining" ∨ k = "property_type" ∨ k = "contract_value" ∨
      k = "tender_type" ∨ k = "organization"))
    (h21 : ¬(k = "published_date" ∨ k = "deadline_date")) :
    normalize_record today rec k = none := by
  simp only [normalize_record]
  rw [if_neg h1, if_neg h2, if_neg h3, if_neg h4, if_neg h5, if_neg h6,
    if_neg h7, if_neg h8, if_neg h9, if_neg h10, if_neg h11, if_neg h12,
    if_neg h13, if_neg h14, if_neg h15, if_neg h16, if_neg h17, if_neg h18,
    if_neg h19, if_neg h20, if_neg h21]

/-- A record whose only interesting field is an 11-digit phone number
starting with `1`: the first pass formats it `+1 (...) ...-....`, the
second strips the punctuation back out to 12 raw characters. -/
def rC6CE : Record := recOfList [("phone", vStr "14165551234")]

/-- C6: counterexample — `normalize_record` is NOT idempotent on every
record.  An 11-digit phone number with leading `1` is formatted to
`+1 (416) 555-1234` on the first pass; on the second pass the non-digit
characters are filtered out again, giving the 12-character string
`+14165551234`, which no longer has the formatted shape. -/
theorem c6_phone_not_idempotent :
    ¬ (normalize_record "2025-06-01" (normalize_record "2025-06-01" rC6CE)
        "phone" = normalize_record "2025-06-01" rC6CE "phone") := by
  decide

/-- C6 (amended): `normalize_record` is idempotent at every key provided
(i) the phone field does not clean to an 11-digit string with leading
`1` (whose North-America formatting is not a fixed point of the
cleaning), (ii) the province does not normalize to
`Newfoundland and Labrador` (the one two-word province name whose
re-normalization misses the lookup table because the normalized country
`🇨🇦 Canada` fails the Canada guard, and `str.title` is then applied
again), (iii) the three date fields do not hold Python `int` values
(`str(int)` can re-parse as `%Y%m%d` and change), and (iv) the injected
`today` string is non-empty. -/
theorem c6_normalize_record_idem (today : String) (r : Record) (k : String)
    (htoday : today ≠ "")
    (hphone : ¬ (((pyStr (r.getD "phone" (vStr ""))).data.filter phoneChar).length = 11 ∧
      ((pyStr (r.getD "phone" (vStr ""))).data.filter phoneChar).head? = some '1'))
    (hprov : normalize_province (r.getStrD "province" "")
      (r.getStrD "country" "") ≠ "Newfoundland and Labrador")
    (hd1 : isIntVal (r "discovered_date") = false)
    (hd2 : isIntVal (r "published_date") = false)
    (hd3 : isIntVal (r "deadline_date") = false) :
    normalize_record today (normalize_record today r) k =
      normalize_record today r k := by
  by_cases h1 : k = "name"
  · subst h1
    exact clean_key_idem today r "name" (fun rec => rfl)
  by_cases h2 : k = "address"
  · subst h2
    exact clean_key_idem today r "address" (fun rec => rfl)
  by_cases h3 : k = "city"
  · subst h3
    have h : ∀ rec : Record, normalize_record today rec "city" =
        some (vStr (pyTitle (clean_string (rec.getD "city" (vStr ""))))) :=
      fun rec => rfl
    have e : (normalize_record today r).getD "city" (vStr "") =
        vStr (pyTitle (clean_string (r.getD "city" (vStr "")))) := by
      rw [Record.getD, h r]
    rw [h (normalize_record today r), h r, e, city_idem]
  by_cases h4 : k = "country"
  · subst h4
    have h : ∀ rec : Record, normalize_record today rec "country" =
        some (vStr (normalize_country (rec.getStrD "country" ""))) :=
      fun rec => rfl
    have e : (normalize_record today r).getStrD "country" "" =
        normalize_country (r.getStrD "country" "") := by
      rw [Record.getStrD, h r]
    rw [h (normalize_record today r), h r, e, normalize_country_idem]
  by_cases h5 : k = "province"
  · subst h5
    have h : ∀ rec : Record, normalize_record today rec "province" =
        some (vStr (normalize_province (rec.getStrD "province" "")
          (rec.getStrD "country" ""))) := fun rec => rfl
    have hc : ∀ rec : Record, normalize_record today rec "country" =
        some (vStr (normalize_country (rec.getStrD "country" ""))) :=
      fun rec => rfl
    have ep : (normalize_record today r).getStrD "province" "" =
        normalize_province (r.getStrD "province" "") (r.getStrD "country" "") := by
      rw [Record.getStrD, h r]
    have ec : (normalize_record today r).getStrD "country" "" =
        normalize_country (r.getStrD "country" "") := by
      rw [Record.getStrD, hc r]
    rw [h (normalize_record today r), h r, ep, ec,
      normalize_province_idem _ _ hprov]
  by_cases h6 : k = "capacity"
  · subst h6
    have h : ∀ rec : Record, normalize_record today rec "capacity" =
        some (match clean_capacity (rec "capacity") with
              | some n => vInt n
              | none => vNone) := fun rec => rfl
    cases hcc : clean_capacity (r "capacity") with
    | some n =>
      have e : normalize_record today r "capacity" = some (vInt n) := by
        rw [h r, hcc]
      rw [h (normalize_record today r), e]
      rfl
    | none =>
      have e : normalize_record today r "capacity" = some vNone := by
        rw [h r, hcc]
      rw [h (normalize_record today r), e]
      rfl
  by_cases h7 : k = "phone"
  · subst h7
    have h : ∀ rec : Record, normalize_record today rec "phone" =
        some (vStr (clean_phone (rec.getD "phone" (vStr "")))) :=
      fun rec => rfl
    have e : (normalize_record today r).getD "phone" (vStr "") =
        vStr (clean_phone (r.getD "phone" (vStr ""))) := by
      rw [Record.getD, h r]
    rw [h (normalize_record today r), h r, e, clean_phone_idem _ hphone]
  by_cases h8 : k = "email"
  · subst h8
    have h : ∀ rec : Record, normalize_record today rec "email" =
        some (vStr (clean_email (rec.getD "email" (vStr "")))) :=
      fun rec => rfl
    have e : (normalize_record today r).getD "email" (vStr "") =
        vStr (clean_email (r.getD "email" (vStr ""))) := by
      rw [Record.getD, h r]
    rw [h (normalize_record today r), h r, e, clean_email_idem]
  by_cases h9 : k = "license_number"
  · subst h9
    exact clean_key_idem today r "license_number" (fun rec => rfl)
  by_cases h10 : k = "license_status"
  · subst h10
    exact pass_key_idem today r "license_status" (vStr "") (fun rec => rfl)
  by_cases h11 : k = "discovered_date"
  · subst h11
    have hfmt : ∀ rec : Record, normalize_record today rec "discovered_date" =
        some (vStr (format_date (if pyTruthy (rec "discovered_date") = true
          then rec.getD "discovered_date" vNone else vStr today))) :=
      fun rec => rfl
    by_cases hT : pyTruthy (r "discovered_date") = true
    · obtain ⟨s, hr, hs⟩ : ∃ s, r "discovered_date" = some (vStr s) ∧ s ≠ "" := by
        cases hr : r "discovered_date" with
        | none => rw [hr] at hT; simp [pyTruthy] at hT
        | some v =>
          cases v with
          | vNone => rw [hr] at hT; simp [pyTruthy] at hT
          | vInt n => rw [hr] at hd1; simp [isIntVal] at hd1
          | vStr s =>
            refine ⟨s, rfl, ?_⟩
            rw [hr] at hT
            simpa [pyTruthy] using hT
      have hv0 : r.getD "discovered_date" vNone = vStr s := by
        rw [Record.getD, hr]
      have e1 : normalize_record today r "discovered_date" =
          some (vStr (format_date (vStr s))) := by
        rw [hfmt r, if_pos hT, hv0]
      have hfne : format_date (vStr s) ≠ "" := format_date_ne_empty s hs
      have e2 : pyTruthy ((normalize_record today r) "discovered_date") =
          true := by
        rw [e1]
        simpa [pyTruthy] using hfne
      have e3 : (normalize_record today r).getD "discovered_date" vNone =
          vStr (format_date (vStr s)) := by
        rw [Record.getD, e1]
      rw [hfmt (normalize_record today r), if_pos e2, e3,
        format_date_idem (vStr s) (fun n hn => Value.noConfusion hn), e1]
    · have e1 : normalize_record today r "discovered_date" =
          some (vStr (format_date (vStr today))) := by
        rw [hfmt r, if_neg hT]
      have hfne : format_date (vStr today) ≠ "" :=
        format_date_ne_empty today htoday
      have e2 : pyTruthy ((normalize_record today r) "discovered_date") =
          true := by
        rw [e1]
        simpa [pyTruthy] using hfne
      have e3 : (normalize_record today r).getD "discovered_date" vNone =
          vStr (format_date (vStr today)) := by
        rw [Record.getD, e1]
      rw [hfmt (normalize_record today r), if_pos e2, e3,
        format_date_idem (vStr today) (fun n hn => Value.noConfusion hn), e1]
  by_cases h12 : k = "source"
  · subst h12
    exact pass_key_idem today r "source" (vStr "") (fun rec => rfl)
  by_cases h13 : k = "source_url"
  · subst h13
    exact pass_key_idem today r "source_url" (vStr "") (fun rec => rfl)
  by_cases h14 : k = "ai_score"
  · subst h14
    exact pass_key_idem today r "ai_score" (vInt 50) (fun rec => rfl)
  by_cases h15 : k = "priority"
  · subst h15
    exact pass_key_idem today r "priority" (vStr "Medium") (fun rec => rfl)
  by_cases h16 : k = "ai_reasoning"
  · subst h16
    exact pass_key_idem today r "ai_reasoning" (vStr "") (fun rec => rfl)
  by_cases h17 : k = "ai_recommendation"
  · subst h17
    exact pass_key_idem today r "ai_recommendation" (vStr "") (fun rec => rfl)
  by_cases h18 : k = "notes"
  · subst h18
    exact pass_key_idem today r "notes" (vStr "") (fun rec => rfl)
  by_cases h19 : k = "type"
  · subst h19
    exact pass_key_idem today r "type" (vStr "新建") (fun rec => rfl)
  by_cases h20 : k = "price" ∨ k = "annual_revenue" ∨ k = "cash_flow" ∨
      k = "lease_remaining" ∨ k = "property_type" ∨ k = "contract_value" ∨
      k = "tender_type" ∨ k = "organization"
  · rcases h20 with rfl | rfl | rfl | rfl | rfl | rfl | rfl | rfl
    · exact opt_key_idem today r "price" (fun rec => rfl)
    · exact opt_key_idem today r "annual_revenue" (fun rec => rfl)
    · exact opt_key_idem today r "cash_flow" (fun rec => rfl)
    · exact opt_key_idem today r "lease_remaining" (fun rec => rfl)
    · exact opt_key_idem today r "property_type" (fun rec => rfl)
    · exact opt_key_idem today r "contract_value" (fun rec => rfl)
    · exact opt_key_idem today r "tender_type" (fun rec => rfl)
    · exact opt_key_idem today r "organization" (fun rec => rfl)
  by_cases h21 : k = "published_date"
  · subst h21
    exact date_key_idem today r "published_date" (fun rec => rfl) hd2
  by_cases h22 : k = "deadline_date"
  · subst h22
    exact date_key_idem today r "deadline_date" (fun rec => rfl) hd3
  rw [normalize_record_none today (normalize_record today r) k h1 h2 h3 h4 h5
      h6 h7 h8 h9 h10 h11 h12 h13 h14 h15 h16 h17 h18 h19 h20
      (fun hor => hor.elim h21 h22),
    normalize_record_none today r k h1 h2 h3 h4 h5 h6 h7 h8 h9 h10 h11 h12
      h13 h14 h15 h16 h17 h18 h19 h20 (fun hor => hor.elim h21 h22)]

/-- A record satisfying every side condition of the amended idempotence
statement: 10-digit phone, Ontario province, no date fields. -/
def rC6W : Record := recOfList [("phone", vStr "(416) 555-1234"),
  ("province", vStr "on"), ("country", vStr "Canada"),
  ("name", vStr "  Sunny Kids  ")]

/-- C6 witness: the amended idempotence theorem applied to a concrete
record at the `phone` key. -/
theorem c6_normalize_record_idem_witness :
    (("2025-06-01" : String) ≠ "" ∧
      ¬ (((pyStr (rC6W.getD "phone" (vStr ""))).data.filter phoneChar).length = 11 ∧
        ((pyStr (rC6W.getD "phone" (vStr ""))).data.filter phoneChar).head? = some '1') ∧
      normalize_province (rC6W.getStrD "province" "")
        (rC6W.getStrD "country" "") ≠ "Newfoundland and Labrador" ∧
      isIntVal (rC6W "discovered_date") = false ∧
      isIntVal (rC6W "published_date") = false ∧
      isIntVal (rC6W "deadline_date") = false) ∧
    normalize_record "2025-06-01" (normalize_record "2025-06-01" rC6W)
      "phone" = normalize_record "2025-06-01" rC6W "phone" :=
  ⟨⟨by decide, by decide, by decide, by decide, by decide, by decide⟩,
   c6_normalize_record_idem "2025-06-01" rC6W "phone" (by decide) (by decide)
     (by decide) (by decide) (by decide) (by decide)⟩
